import Mathlib

/-!
Verification of the relationship inference engine of the phylo backend
(`apps/backend/api/relationships.py`).  The Python functions
`_build_relationship_graph`, `_get_ancestors_and_distance`, `_ordinal`,
`_get_gender_specific_relationship`, `_compute_relationship`,
`_find_path_through_parents`, `_find_path_through_children`,
`_check_in_law_relationships`, `_check_cultural_relationships` and
`_compute_basic_blood_relationship` are embedded shallowly below; member
ids (UUIDs in the source) are modelled as naturals, Python dicts as
association lists in insertion order, and Python sets as finite sets.
-/

/-- Association-list lookup with a default, modelling Python `d.get(k, default)`. -/
def lookupD {α : Type} (l : List (Nat × α)) (k : Nat) (dflt : α) : α :=
  match l.find? (fun e => e.1 == k) with
  | some e => e.2
  | none => dflt

/-- Association-list lookup returning an option, modelling `k in d` plus `d[k]`. -/
def lookupN {α : Type} (l : List (Nat × α)) (k : Nat) : Option α :=
  (l.find? (fun e => e.1 == k)).map (fun e => e.2)

/-- The keys of an association list (Python `dict` iteration order). -/
def keysOf {α : Type} (l : List (Nat × α)) : List Nat :=
  l.map (fun e => e.1)

/-- All ids occurring in the value lists of a parent-adjacency map. -/
def valsUnion (p : List (Nat × List Nat)) : Finset Nat :=
  p.foldr (fun e s => e.2.toFinset ∪ s) ∅

/-- One member record; only the gender tag matters to the engine
(`models.Member.gender`, an optional string). -/
structure Member where
  gender : Option String
deriving DecidableEq, Repr

/-- The relationship graph built by `_build_relationship_graph`: a members
map plus spouse/parent/child adjacency dicts. -/
structure Graph where
  members : List (Nat × Member)
  spouses : List (Nat × List Nat)
  parents : List (Nat × List Nat)
  children : List (Nat × List Nat)
deriving Repr

/-- `graph["spouses"].get(x, [])`. -/
def spousesD (g : Graph) (x : Nat) : List Nat := lookupD g.spouses x []

/-- `graph["parents"].get(x, [])`. -/
def parentsD (g : Graph) (x : Nat) : List Nat := lookupD g.parents x []

/-- `graph["children"].get(x, [])`. -/
def childrenD (g : Graph) (x : Nat) : List Nat := lookupD g.children x []

/-- Inner loop of `_get_ancestors_and_distance`: for each parent of the
dequeued node, a parent not yet visited is marked visited, recorded in the
ancestors dict at distance `d+1` and appended to the queue. -/
def expandStep (d : Nat) : List Nat → Finset Nat → List (Nat × Nat) → List (Nat × Nat) →
    Finset Nat × List (Nat × Nat) × List (Nat × Nat)
  | [], vis, acc, q => (vis, acc, q)
  | pid :: rest, vis, acc, q =>
    if pid ∈ vis then expandStep d rest vis acc q
    else expandStep d rest (insert pid vis) (acc ++ [(pid, d + 1)]) (q ++ [(pid, d + 1)])

theorem expandStep_spec (d : Nat) (ps : List Nat) (vis : Finset Nat)
    (acc q : List (Nat × Nat)) :
    ∃ news : List Nat,
      news.Nodup ∧ (∀ x ∈ news, x ∈ ps ∧ x ∉ vis) ∧
      (expandStep d ps vis acc q).1 = vis ∪ news.toFinset ∧
      (expandStep d ps vis acc q).2.1 = acc ++ news.map (fun x => (x, d + 1)) ∧
      (expandStep d ps vis acc q).2.2 = q ++ news.map (fun x => (x, d + 1)) := by
  induction ps generalizing vis acc q with
  | nil =>
    exact ⟨[], by simp [expandStep]⟩
  | cons pid rest ih =>
    by_cases h : pid ∈ vis
    · obtain ⟨news, hnd, hmem, h1, h2, h3⟩ := ih vis acc q
      refine ⟨news, hnd, ?_, ?_, ?_, ?_⟩
      · intro x hx; exact ⟨List.mem_cons_of_mem _ (hmem x hx).1, (hmem x hx).2⟩
      · simpa [expandStep, h] using h1
      · simpa [expandStep, h] using h2
      · simpa [expandStep, h] using h3
    · obtain ⟨news, hnd, hmem, h1, h2, h3⟩ :=
        ih (insert pid vis) (acc ++ [(pid, d + 1)]) (q ++ [(pid, d + 1)])
      refine ⟨pid :: news, ?_, ?_, ?_, ?_, ?_⟩
      · refine List.nodup_cons.2 ⟨fun hc => ?_, hnd⟩
        exact (hmem pid hc).2 (Finset.mem_insert_self _ _)
      · intro x hx
        rcases List.mem_cons.1 hx with rfl | hx'
        · exact ⟨List.mem_cons_self _ _, h⟩
        · refine ⟨List.mem_cons_of_mem _ (hmem x hx').1, fun hc => ?_⟩
          exact (hmem x hx').2 (Finset.mem_insert_of_mem hc)
      · rw [show expandStep d (pid :: rest) vis acc q
              = expandStep d rest (insert pid vis) (acc ++ [(pid, d + 1)])
                  (q ++ [(pid, d + 1)]) by simp [expandStep, h]]
        rw [h1]
        ext x
        simp only [List.toFinset_cons, Finset.mem_insert, Finset.mem_union]
        tauto
      · rw [show expandStep d (pid :: rest) vis acc q
              = expandStep d rest (insert pid vis) (acc ++ [(pid, d + 1)])
                  (q ++ [(pid, d + 1)]) by simp [expandStep, h]]
        rw [h2]; simp
      · rw [show expandStep d (pid :: rest) vis acc q
              = expandStep d rest (insert pid vis) (acc ++ [(pid, d + 1)])
                  (q ++ [(pid, d + 1)]) by simp [expandStep, h]]
        rw [h3]; simp

theorem lookupD_subset_valsUnion (p : List (Nat × List Nat)) (c : Nat) :
    ∀ x ∈ lookupD p c [], x ∈ valsUnion p := by
  intro x hx
  unfold lookupD at hx
  cases hfind : p.find? (fun e => e.1 == c) with
  | none => rw [hfind] at hx; simp at hx
  | some e =>
    rw [hfind] at hx
    have he : e ∈ p := List.mem_of_find?_eq_some hfind
    clear hfind
    induction p with
    | nil => simp at he
    | cons hd tl ih =>
      rcases List.mem_cons.1 he with rfl | htl
      · unfold valsUnion
        simp only [List.foldr_cons]
        exact Finset.mem_union_left _ (List.mem_toFinset.2 hx)
      · unfold valsUnion
        simp only [List.foldr_cons]
        exact Finset.mem_union_right _ (ih htl)

/-- Main loop of `_get_ancestors_and_distance`: BFS over the parent
adjacency, dequeuing from the front; the visited set prevents
re-expansion, so the loop terminates on any finite graph, cyclic or not
(the termination measure is the number of not-yet-visited candidate ids
plus the queue length). -/
def bfsLoop (p : List (Nat × List Nat)) :
    List (Nat × Nat) → Finset Nat → List (Nat × Nat) → List (Nat × Nat)
  | [], _, acc => acc
  | (c, d) :: rest, vis, acc =>
    let r := expandStep d (lookupD p c []) vis acc rest
    bfsLoop p r.2.2 r.1 r.2.1
termination_by q vis _ => (valsUnion p \ vis).card + q.length
decreasing_by
  obtain ⟨news, hnd, hmem, h1, h2, h3⟩ := expandStep_spec d (lookupD p c []) vis acc rest
  simp only [r, h1, h3]
  have hsub : news.toFinset ⊆ valsUnion p \ vis := by
    intro x hx
    have hx' := List.mem_toFinset.1 hx
    exact Finset.mem_sdiff.2
      ⟨lookupD_subset_valsUnion p c x (hmem x hx').1, (hmem x hx').2⟩
  have heq : valsUnion p \ (vis ∪ news.toFinset) = (valsUnion p \ vis) \ news.toFinset := by
    ext x
    simp only [Finset.mem_sdiff, Finset.mem_union]
    tauto
  have hcard : ((valsUnion p \ vis) \ news.toFinset).card
      = (valsUnion p \ vis).card - news.toFinset.card := Finset.card_sdiff hsub
  have hle : news.toFinset.card ≤ (valsUnion p \ vis).card := Finset.card_le_card hsub
  have hnc : news.toFinset.card = news.length := List.toFinset_card_of_nodup hnd
  rw [heq, hcard]
  simp only [List.length_append, List.length_map, List.length_cons]
  omega

/-- `_get_ancestors_and_distance(member_id, graph)`. -/
def ancestorsList (s : Nat) (p : List (Nat × List Nat)) : List (Nat × Nat) :=
  bfsLoop p [(s, 0)] {s} []

/-- Walks from `s` upward through parent edges: `walkUp p s n v` holds when
there is a length-`n` chain `s → … → v` where each hop goes from a node to
one of its recorded parents. -/
def walkUp (p : List (Nat × List Nat)) (s : Nat) : Nat → Nat → Bool
  | 0, v => v == s
  | n + 1, v => (keysOf p).any (fun u => walkUp p s n u && (lookupD p u []).contains v)

/-- `v` is an ancestor of `s` at minimal hop count `d`. -/
def minWalk (p : List (Nat × List Nat)) (s v d : Nat) : Prop :=
  walkUp p s d v = true ∧ ∀ k < d, walkUp p s k v = false

/-- `_ordinal(n)`. -/
def ordinal (n : Nat) : String :=
  if 10 ≤ n % 100 ∧ n % 100 ≤ 20 then Nat.repr n ++ "th"
  else
    Nat.repr n ++ (match n % 10 with
      | 1 => "st"
      | 2 => "nd"
      | 3 => "rd"
      | _ => "th")

/-- `"great-" * k` (Python string repetition). -/
def greats : Nat → String
  | 0 => ""
  | k + 1 => "great-" ++ greats k

/-- Python `s.lower()` (ASCII case folding suffices for the engine's labels). -/
def pyLower (s : String) : String := String.mk (s.data.map Char.toLower)

/-- Python `pat in hay` substring test. -/
def containsSub (hay pat : String) : Bool :=
  hay.data.tails.any (fun t => pat.data.isPrefixOf t)

/-- Python `s.endswith(pat)`. -/
def endsWithS (s pat : String) : Bool := pat.data.isSuffixOf s.data

/-- Replace every occurrence of `pat` left to right (Python `s.replace(pat, rep)`
for a non-empty `pat`, which is the only way the engine calls it). -/
def replaceCore (pat rep : List Char) : List Char → List Char
  | [] => []
  | c :: cs =>
    if h : pat.isPrefixOf (c :: cs) = true ∧ pat ≠ [] then
      rep ++ replaceCore pat rep ((c :: cs).drop pat.length)
    else
      c :: replaceCore pat rep cs
termination_by s => s.length
decreasing_by
  · have hlen : pat.length ≠ 0 := fun hz => h.2 (List.length_eq_zero.1 hz)
    simp only [List.length_drop, List.length_cons]
    omega
  · simp

/-- Python `s.replace(pat, rep)`. -/
def pyReplace (s pat rep : String) : String :=
  String.mk (replaceCore pat.data rep.data s.data)

/-- Digit-run value, for the regex capture group `(\d+)`. -/
def digitsVal (ds : List Char) : Nat :=
  ds.foldl (fun acc c => acc * 10 + (c.toNat - '0'.toNat)) 0

/-- Does `re.search(r'(\d+)(?:st|nd|rd|th)\s+cousin', s)` match starting at
this position?  (The digit run is maximal: no ordinal suffix starts with a
digit, so the greedy `\d+` never backtracks.) -/
def tryCousinAt (l : List Char) : Option Nat :=
  let ds := l.takeWhile Char.isDigit
  if ds.isEmpty then none
  else
    let r1 := l.drop ds.length
    if "st".data.isPrefixOf r1 || "nd".data.isPrefixOf r1 ||
        "rd".data.isPrefixOf r1 || "th".data.isPrefixOf r1 then
      let r2 := r1.drop 2
      let ws := r2.takeWhile Char.isWhitespace
      if ws.isEmpty then none
      else if "cousin".data.isPrefixOf (r2.drop ws.length) then some (digitsVal ds)
      else none
    else none

/-- Leftmost match of the cousin-degree regex used by
`_check_cultural_relationships`. -/
def cousinDegreeSearch (s : String) : Option Nat :=
  s.data.tails.findSome? tryCousinAt

/-- The fold of `_compute_relationship` (and of
`_compute_basic_blood_relationship`) that scans `ancestors_from.items()` and
keeps the common ancestor with the strictly smallest `d_from + d_to`. -/
def ccGo (mt : List (Nat × Nat)) :
    List (Nat × Nat) → Option (Nat × Nat × Nat) → Option (Nat × Nat × Nat)
  | [], best => best
  | (y, dy) :: rest, best =>
    match lookupN mt y with
    | none => ccGo mt rest best
    | some dy' =>
      match best with
      | none => ccGo mt rest (some (y, dy, dy'))
      | some (c, df, dt) =>
        if dy + dy' < df + dt then ccGo mt rest (some (y, dy, dy'))
        else ccGo mt rest (some (c, df, dt))

/-- Closest common ancestor selection over the two ancestor maps. -/
def closestCommon (mf mt : List (Nat × Nat)) : Option (Nat × Nat × Nat) :=
  ccGo mt mf none

/-- Inner loop of `_find_path_through_parents` / `_find_path_through_children`:
expand one dequeued `(current, path)` over its adjacency list, with the early
return when the target is hit. -/
def pathExpand (tgt maxD : Nat) (path : List Nat) :
    List Nat → Finset Nat → List (Nat × List Nat) →
    Option (List Nat) × Finset Nat × List (Nat × List Nat)
  | [], vis, q => (none, vis, q)
  | pid :: rest, vis, q =>
    if pid == tgt then (some (path ++ [pid]), vis, q)
    else if pid ∉ vis ∧ (path ++ [pid]).length < maxD then
      pathExpand tgt maxD path rest (insert pid vis) (q ++ [(pid, path ++ [pid])])
    else pathExpand tgt maxD path rest vis q

theorem pathExpand_spec (tgt maxD : Nat) (path : List Nat) (ps : List Nat)
    (vis : Finset Nat) (q : List (Nat × List Nat)) :
    (pathExpand tgt maxD path ps vis q).1 = none →
    ∃ entries : List (Nat × List Nat),
      ((entries.map Prod.fst).Nodup ∧ ∀ e ∈ entries, e.1 ∈ ps ∧ e.1 ∉ vis) ∧
      (pathExpand tgt maxD path ps vis q).2.1 = vis ∪ (entries.map Prod.fst).toFinset ∧
      (pathExpand tgt maxD path ps vis q).2.2 = q ++ entries := by
  induction ps generalizing vis q with
  | nil =>
    intro _
    exact ⟨[], ⟨List.nodup_nil, by simp⟩, by simp [pathExpand], by simp [pathExpand]⟩
  | cons pid rest ih =>
    intro hnone
    by_cases ht : (pid == tgt) = true
    · rw [show pathExpand tgt maxD path (pid :: rest) vis q
            = (some (path ++ [pid]), vis, q) by simp [pathExpand, ht]] at hnone
      simp at hnone
    · by_cases hfresh : pid ∉ vis ∧ (path ++ [pid]).length < maxD
      · have hred : pathExpand tgt maxD path (pid :: rest) vis q
            = pathExpand tgt maxD path rest (insert pid vis) (q ++ [(pid, path ++ [pid])]) := by
          simp only [pathExpand]
          rw [if_neg ht, if_pos hfresh]
        rw [hred] at hnone ⊢
        obtain ⟨entries, ⟨hnd, hmem⟩, h1, h2⟩ := ih _ _ hnone
        refine ⟨(pid, path ++ [pid]) :: entries, ⟨?_, ?_⟩, ?_, ?_⟩
        · refine List.nodup_cons.2 ⟨fun hc => ?_, hnd⟩
          have := List.mem_map.1 hc
          obtain ⟨e, he, hfst⟩ := this
          have := (hmem e he).2
          rw [hfst] at this
          exact this (Finset.mem_insert_self _ _)
        · intro e he
          rcases List.mem_cons.1 he with rfl | he'
          · exact ⟨List.mem_cons_self _ _, hfresh.1⟩
          · refine ⟨List.mem_cons_of_mem _ (hmem e he').1, fun hc => ?_⟩
            exact (hmem e he').2 (Finset.mem_insert_of_mem hc)
        · rw [h1]
          ext x
          simp only [List.map_cons, List.toFinset_cons, Finset.mem_insert,
            Finset.mem_union]
          tauto
        · rw [h2]; simp
      · have hred : pathExpand tgt maxD path (pid :: rest) vis q
            = pathExpand tgt maxD path rest vis q := by
          simp only [pathExpand]
          rw [if_neg (by simpa using ht), if_neg hfresh]
        rw [hred] at hnone ⊢
        obtain ⟨entries, ⟨hnd, hmem⟩, h1, h2⟩ := ih _ _ hnone
        exact ⟨entries, ⟨hnd, fun e he =>
          ⟨List.mem_cons_of_mem _ (hmem e he).1, (hmem e he).2⟩⟩, h1, h2⟩

/-- Main loop shared by `_find_path_through_parents` and
`_find_path_through_children` (they differ only in the adjacency passed in). -/
def pathLoop (adj : List (Nat × List Nat)) (tgt maxD : Nat) :
    List (Nat × List Nat) → Finset Nat → List Nat
  | [], _ => []
  | (cur, path) :: rest, vis =>
    if maxD ≤ path.length then pathLoop adj tgt maxD rest vis
    else
      let r := pathExpand tgt maxD path (lookupD adj cur []) vis rest
      match hr : r.1 with
      | some res => res
      | none => pathLoop adj tgt maxD r.2.2 r.2.1
termination_by q vis => (valsUnion adj \ vis).card + q.length
decreasing_by
  · simp only [List.length_cons]
    omega
  · obtain ⟨entries, ⟨hnd, hmem⟩, h1, h2⟩ :=
      pathExpand_spec tgt maxD path (lookupD adj cur []) vis rest hr
    simp only [r, h1, h2]
    have hsub : (entries.map Prod.fst).toFinset ⊆ valsUnion adj \ vis := by
      intro x hx
      have hx' := List.mem_toFinset.1 hx
      obtain ⟨e, he, hfst⟩ := List.mem_map.1 hx'
      refine Finset.mem_sdiff.2 ⟨?_, ?_⟩
      · exact lookupD_subset_valsUnion adj cur x (hfst ▸ (hmem e he).1)
      · exact hfst ▸ (hmem e he).2
    have heq : valsUnion adj \ (vis ∪ (entries.map Prod.fst).toFinset)
        = (valsUnion adj \ vis) \ (entries.map Prod.fst).toFinset := by
      ext x
      simp only [Finset.mem_sdiff, Finset.mem_union]
      tauto
    have hcard := Finset.card_sdiff hsub
    have hle := Finset.card_le_card hsub
    have hnc : (entries.map Prod.fst).toFinset.card = entries.length := by
      rw [List.toFinset_card_of_nodup hnd, List.length_map]
    rw [heq, hcard]
    simp only [List.length_append, List.length_cons]
    omega

/-- `_find_path_through_parents(from_id, to_id, parents, max_depth)`. -/
def findPathParents (a tgt : Nat) (parents : List (Nat × List Nat)) (maxD : Nat) :
    List Nat :=
  if maxD = 0 then [] else pathLoop parents tgt maxD [(a, [])] {a}

/-- `_find_path_through_children(from_id, to_id, children, max_depth)`. -/
def findPathChildren (a tgt : Nat) (children : List (Nat × List Nat)) (maxD : Nat) :
    List Nat :=
  if maxD = 0 then [] else pathLoop children tgt maxD [(a, [])] {a}

/-- `_compute_basic_blood_relationship(from_id, to_id, graph)`: blood
relations only, used as a helper by the cultural and in-law checkers.
Note its ancestor cases label the relationship from `to`'s perspective
("parent" when `to` is `from`'s parent), unlike `_compute_relationship`. -/
def basicBlood (a b : Nat) (g : Graph) : Option (String × List Nat) :=
  if a = b then some ("self", [a])
  else if (childrenD g a).contains b then some ("parent", [a, b])
  else if (parentsD g a).contains b then some ("child", [a, b])
  else
    let ancF := ancestorsList a g.parents
    let ancT := ancestorsList b g.parents
    match lookupN ancF b with
    | some d =>
      if d = 1 then some ("parent", [a, b])
      else if d = 2 then some ("grandparent", [a, b])
      else some (greats (d - 2) ++ "grandparent", [a, b])
    | none =>
    match lookupN ancT a with
    | some d =>
      if d = 1 then some ("child", [a, b])
      else if d = 2 then some ("grandchild", [a, b])
      else some (greats (d - 2) ++ "grandchild", [a, b])
    | none =>
    match closestCommon ancF ancT with
    | some (cca, df, dt) =>
      if df = 1 ∧ dt = 1 then some ("sibling", [a, cca, b])
      else if df = 1 ∧ dt > 1 then
        if dt = 2 then some ("aunt/uncle", [a, cca, b])
        else some (greats (dt - 2) ++ "aunt/uncle", [a, cca, b])
      else if dt = 1 ∧ df > 1 then
        if df = 2 then some ("niece/nephew", [a, cca, b])
        else some (greats (df - 2) ++ "niece/nephew", [a, cca, b])
      else if 2 ≤ df ∧ 2 ≤ dt then
        let removal := max df dt - min df dt
        let ostr := ordinal (min df dt - 1)
        if removal = 0 then some (ostr ++ " cousin", [a, cca, b])
        else if removal = 1 then some (ostr ++ " cousin, once removed", [a, cca, b])
        else if removal = 2 then some (ostr ++ " cousin, twice removed", [a, cca, b])
        else some (ostr ++ " cousin, " ++ Nat.repr removal ++ " times removed", [a, cca, b])
      else none
    | none => none

/-- Per-parent body of the first loop of `_check_cultural_relationships`
(`to` related to one of `from`'s parents). -/
def culturalViaParent (a b : Nat) (g : Graph) (p : Nat) : Option (String × List Nat) :=
  match basicBlood p b g with
  | none => none
  | some (relType, _) =>
    let rl := pyLower relType
    if rl == "sibling" then some ("aunt/uncle", [a, p, b])
    else if rl == "1st cousin" then some ("2nd aunt/uncle", [a, p, b])
    else if rl == "2nd cousin" then some ("3rd aunt/uncle", [a, p, b])
    else if containsSub rl "cousin" && !containsSub rl "removed" then
      match cousinDegreeSearch rl with
      | some deg => some (ordinal (deg + 1) ++ " aunt/uncle", [a, p, b])
      | none => none
    else if containsSub rl "cousin" && containsSub rl "removed" then
      some ("cousin-aunt/uncle", [a, p, b])
    else none

/-- Per-ancestor body of the grandparent-or-higher loop of
`_check_cultural_relationships`. -/
def culturalViaAncestor (a b : Nat) (g : Graph) (x dist : Nat) :
    Option (String × List Nat) :=
  if 2 ≤ dist then
    match basicBlood x b g with
    | none => none
    | some (relType, _) =>
      let rl := pyLower relType
      if dist == 2 && (rl == "sibling") then some ("great-aunt/uncle", [a, x, b])
      else if 2 < dist && (rl == "sibling") then
        some (greats (dist - 1) ++ "aunt/uncle", [a, x, b])
      else if dist == 2 && (rl == "1st cousin") then
        some ("2nd great-aunt/uncle", [a, x, b])
      else if 2 < dist && containsSub rl "cousin" && !containsSub rl "removed" then
        match cousinDegreeSearch rl with
        | some deg =>
          some (ordinal (deg + 1) ++ " " ++ greats (dist - 1) ++ "aunt/uncle", [a, x, b])
        | none => none
      else none
  else none

/-- Per-ancestor body of the reverse (niece/nephew-by-convention) loop of
`_check_cultural_relationships`. -/
def culturalViaReverse (a b : Nat) (g : Graph) (x dist : Nat) :
    Option (String × List Nat) :=
  match basicBlood a x g with
  | none => none
  | some (relType, _) =>
    let rl := pyLower relType
    if dist == 1 && (rl == "sibling") then some ("niece/nephew", [a, x, b])
    else if dist == 1 && (rl == "1st cousin") then some ("2nd niece/nephew", [a, x, b])
    else if dist == 1 && containsSub rl "cousin" && !containsSub rl "removed" then
      match cousinDegreeSearch rl with
      | some deg => some (ordinal (deg + 1) ++ " niece/nephew", [a, x, b])
      | none => none
    else if 2 ≤ dist && (rl == "sibling") then
      some (greats (dist - 1) ++ "niece/nephew", [a, x, b])
    else none

/-- `_check_cultural_relationships(from_id, to_id, graph)`. -/
def checkCultural (a b : Nat) (g : Graph) : Option (String × List Nat) :=
  match (parentsD g a).findSome? (culturalViaParent a b g) with
  | some r => some r
  | none =>
  match (ancestorsList a g.parents).findSome?
      (fun e => culturalViaAncestor a b g e.1 e.2) with
  | some r => some r
  | none =>
  match (ancestorsList b g.parents).findSome?
      (fun e => culturalViaReverse a b g e.1 e.2) with
  | some r => some r
  | none =>
  match basicBlood a b g with
  | none => none
  | some (relType, _) =>
    if containsSub (pyLower relType) "cousin" then
      (spousesD g a).findSome? (fun s =>
        match basicBlood s b g with
        | none => none
        | some (r2, _) =>
          if containsSub (pyLower r2) "cousin" then some ("cousin-in-law", [a, s, b])
          else none)
    else none

/-- The elif chain of the per-spouse body of `_check_in_law_relationships`,
with the Python local `rel_lower` passed as the parameter `rl`. -/
def inLawSpouseLabel (a b s : Nat) (g : Graph) (relType rl : String) :
    Option (String × List Nat) :=
  if rl == "parent" then some ("parent-in-law", [a, s, b])
    else if rl == "child" then
      if !(childrenD g a).contains b then some ("step-child", [a, s, b]) else none
    else if rl == "sibling" then some ("sibling-in-law", [a, s, b])
    else if rl == "grandparent" then some ("grandparent-in-law", [a, s, b])
    else if rl == "grandchild" then some ("grandchild-in-law", [a, s, b])
    else if containsSub rl "great-" && containsSub rl "grandparent" then
      some (pyReplace rl "grandparent" "" ++ "grandparent-in-law", [a, s, b])
    else if containsSub rl "great-" && containsSub rl "grandchild" then
      some (pyReplace rl "grandchild" "" ++ "grandchild-in-law", [a, s, b])
    else if rl == "aunt/uncle" then some ("aunt/uncle-in-law", [a, s, b])
    else if rl == "niece/nephew" then some ("niece/nephew-in-law", [a, s, b])
    else if containsSub rl "great-" && containsSub rl "aunt/uncle" then
      some (pyReplace rl "aunt/uncle" "" ++ "aunt/uncle-in-law", [a, s, b])
    else if containsSub rl "great-" && containsSub rl "niece/nephew" then
      some (pyReplace rl "niece/nephew" "" ++ "niece/nephew-in-law", [a, s, b])
    else if containsSub rl "cousin" then some (relType ++ "-in-law", [a, s, b])
    else none

/-- Per-spouse body of the comprehensive in-law loop of
`_check_in_law_relationships`. -/
def inLawViaSpouse (a b : Nat) (g : Graph) (s : Nat) : Option (String × List Nat) :=
  match basicBlood s b g with
  | none => none
  | some (relType, _) => inLawSpouseLabel a b s g relType (pyLower relType)

/-- Per-member body of the relative's-spouse loop of
`_check_in_law_relationships`. -/
def inLawViaRelative (a b : Nat) (g : Graph) (rel : Nat) : Option (String × List Nat) :=
  if rel == a || rel == b then none
  else if (spousesD g rel).contains b then
    match basicBlood a rel g with
    | none => none
    | some (relType, _) =>
      let rl := pyLower relType
      if rl == "parent" then some ("child-in-law", [a, rel, b])
      else if rl == "child" then some ("parent-in-law", [a, rel, b])
      else if rl == "sibling" then some ("sibling-in-law", [a, rel, b])
      else if rl == "grandparent" then some ("grandchild-in-law", [a, rel, b])
      else if rl == "grandchild" then some ("grandparent-in-law", [a, rel, b])
      else if rl == "aunt/uncle" then some ("niece/nephew-in-law", [a, rel, b])
      else if rl == "niece/nephew" then some ("aunt/uncle-in-law", [a, rel, b])
      else if containsSub rl "cousin" then some (relType ++ "-in-law", [a, rel, b])
      else none
  else none

/-- `_check_in_law_relationships(from_id, to_id, graph)`. -/
def checkInLaw (a b : Nat) (g : Graph) : Option (String × List Nat) :=
  match (parentsD g a).findSome? (fun p =>
      if (spousesD g p).contains b && !(parentsD g a).contains b then
        some ("step-parent", [a, p, b])
      else none) with
  | some r => some r
  | none =>
  match (parentsD g b).findSome? (fun p =>
      if (spousesD g p).contains a && !(parentsD g b).contains a then
        some ("step-child", [a, p, b])
      else none) with
  | some r => some r
  | none =>
  match (spousesD g a).findSome? (inLawViaSpouse a b g) with
  | some r => some r
  | none =>
  match (childrenD g a).findSome? (fun c =>
      if (spousesD g c).contains b then some ("child-in-law", [a, c, b]) else none) with
  | some r => some r
  | none =>
  (keysOf g.members).findSome? (inLawViaRelative a b g)

/-- Per-spouse body of the inline in-law block of `_compute_relationship`
(lines 974-995 of the source). -/
def inlineSpouse (a b : Nat) (g : Graph) (s : Nat) : Option (String × List Nat) :=
  if (parentsD g s).contains b then some ("parent-in-law", [a, s, b])
  else if (childrenD g s).contains b then
    if !(childrenD g a).contains b then some ("step-child", [a, s, b])
    else some ("child", [a, b])
  else
    let ancS := ancestorsList s g.parents
    let ancT := ancestorsList b g.parents
    ancS.findSome? (fun e =>
      match lookupN ancT e.1 with
      | none => none
      | some dt => if e.2 == 1 && dt == 1 then some ("sibling-in-law", [a, s, e.1, b])
                   else none)

/-- The tail of `_compute_relationship` after the collateral section: inline
in-law checks, then child's-spouse, then the cultural checker, then the
in-law checker, then `unknown`. -/
def afterCollateral (a b : Nat) (g : Graph) : String × List Nat :=
  match (spousesD g a).findSome? (inlineSpouse a b g) with
  | some r => r
  | none =>
  match (childrenD g a).findSome? (fun c =>
      if (spousesD g c).contains b then some ("child-in-law", [a, c, b]) else none) with
  | some r => r
  | none =>
  match checkCultural a b g with
  | some r => r
  | none =>
  match checkInLaw a b g with
  | some r => r
  | none => ("unknown", [a, b])

/-- The collateral (common-ancestor) section of `_compute_relationship`,
including the duplicated "extended" aunt/uncle and niece/nephew branches of
the source; `none` when no branch matches (Python falls through). -/
def collateralResult (a b : Nat) (g : Graph) (cca df dt : Nat) :
    Option (String × List Nat) :=
  if df = 1 ∧ dt = 1 then
    if ((parentsD g a).all (fun x => (parentsD g b).contains x) &&
        (parentsD g b).all (fun x => (parentsD g a).contains x)) &&
        !(parentsD g a).isEmpty then
      some ("sibling", [a, cca, b])
    else
      some ("sibling", [a, cca, b])
  else if df = 1 ∧ 1 < dt then
    if dt = 2 then some ("aunt/uncle", [a, cca, b])
    else some (greats (dt - 2) ++ "aunt/uncle", [a, cca, b])
  else if dt = 1 ∧ 1 < df then
    if df = 2 then some ("niece/nephew", [a, cca, b])
    else some (greats (df - 2) ++ "niece/nephew", [a, cca, b])
  else if df = 1 ∧ 2 ≤ dt then
    if dt = 2 then some ("aunt/uncle", [a, cca, b])
    else some (greats (dt - 2) ++ "aunt/uncle", [a, cca, b])
  else if dt = 1 ∧ 2 ≤ df then
    if df = 2 then some ("niece/nephew", [a, cca, b])
    else some (greats (df - 2) ++ "niece/nephew", [a, cca, b])
  else if 2 ≤ df ∧ 2 ≤ dt then
    let removal := max df dt - min df dt
    let ostr := ordinal (min df dt - 1)
    if removal = 0 then some (ostr ++ " cousin", [a, cca, b])
    else if removal = 1 then some (ostr ++ " cousin, once removed", [a, cca, b])
    else if removal = 2 then some (ostr ++ " cousin, twice removed", [a, cca, b])
    else some (ostr ++ " cousin, " ++ Nat.repr removal ++ " times removed", [a, cca, b])
  else none

/-- `_compute_relationship(from_id, to_id, graph)`. -/
def computeRelationship (a b : Nat) (g : Graph) : String × List Nat :=
  if a = b then ("self", [a])
  else if (spousesD g a).contains b then ("spouse", [a, b])
  else if (childrenD g a).contains b then ("parent", [a, b])
  else if (parentsD g a).contains b then ("child", [a, b])
  else
    let ancF := ancestorsList a g.parents
    let ancT := ancestorsList b g.parents
    match lookupN ancF b with
    | some d =>
      if d = 1 then ("child", [a, b])
      else if d = 2 then ("grandchild", a :: findPathParents a b g.parents d)
      else (greats (d - 2) ++ "grandchild", a :: findPathParents a b g.parents d)
    | none =>
    match lookupN ancT a with
    | some d =>
      if d = 1 then ("parent", [a, b])
      else if d = 2 then ("grandparent", a :: findPathChildren a b g.children d)
      else (greats (d - 2) ++ "grandparent", a :: findPathChildren a b g.children d)
    | none =>
    match closestCommon ancF ancT with
    | some (cca, df, dt) =>
      match collateralResult a b g cca df dt with
      | some r => r
      | none => afterCollateral a b g
    | none => afterCollateral a b g

/-- The branch chain of `_get_gender_specific_relationship`, with the Python
locals `gender` and `rel` (the lowered inputs) passed as parameters. -/
def genderLabel (base gender rel : String) : String :=
  if rel == "parent" then
    if gender == "male" then "father" else if gender == "female" then "mother"
    else "parent"
  else if rel == "child" then
    if gender == "male" then "son" else if gender == "female" then "daughter"
    else "child"
  else if rel == "sibling" then
    if gender == "male" then "brother" else if gender == "female" then "sister"
    else "sibling"
  else if rel == "half-sibling" then
    if gender == "male" then "half-brother"
    else if gender == "female" then "half-sister"
    else "half-sibling"
  else if rel == "grandparent" then
    if gender == "male" then "grandfather"
    else if gender == "female" then "grandmother"
    else "grandparent"
  else if rel == "grandchild" then
    if gender == "male" then "grandson"
    else if gender == "female" then "granddaughter"
    else "grandchild"
  else if rel == "aunt/uncle" then
    if gender == "male" then "uncle" else if gender == "female" then "aunt"
    else "aunt/uncle"
  else if rel == "niece/nephew" then
    if gender == "male" then "nephew" else if gender == "female" then "niece"
    else "niece/nephew"
  else if rel == "cousin-aunt/uncle" then
    if gender == "male" then "cousin-uncle"
    else if gender == "female" then "cousin-aunt"
    else "cousin-aunt/uncle"
  else if rel == "cousin-niece/nephew" then
    if gender == "male" then "cousin-nephew"
    else if gender == "female" then "cousin-niece"
    else "cousin-niece/nephew"
  else if containsSub rel "great-" then
    if endsWithS rel "grandparent" then
      if gender == "male" then pyReplace rel "grandparent" "" ++ "grandfather"
      else if gender == "female" then pyReplace rel "grandparent" "" ++ "grandmother"
      else rel
    else if endsWithS rel "grandchild" then
      if gender == "male" then pyReplace rel "grandchild" "" ++ "grandson"
      else if gender == "female" then pyReplace rel "grandchild" "" ++ "granddaughter"
      else rel
    else if endsWithS rel "aunt/uncle" then
      if gender == "male" then pyReplace rel "aunt/uncle" "" ++ "uncle"
      else if gender == "female" then pyReplace rel "aunt/uncle" "" ++ "aunt"
      else rel
    else if endsWithS rel "niece/nephew" then
      if gender == "male" then pyReplace rel "niece/nephew" "" ++ "nephew"
      else if gender == "female" then pyReplace rel "niece/nephew" "" ++ "niece"
      else rel
    else base
  else if containsSub rel "-in-law" then
    if containsSub rel "parent" then
      if gender == "male" then "father-in-law"
      else if gender == "female" then "mother-in-law" else rel
    else if containsSub rel "child" then
      if gender == "male" then "son-in-law"
      else if gender == "female" then "daughter-in-law" else rel
    else if containsSub rel "sibling" then
      if gender == "male" then "brother-in-law"
      else if gender == "female" then "sister-in-law" else rel
    else if containsSub rel "grandparent" then
      if gender == "male" then "grandfather-in-law"
      else if gender == "female" then "grandmother-in-law" else rel
    else if containsSub rel "aunt" || containsSub rel "uncle" then
      if gender == "male" then "uncle-in-law"
      else if gender == "female" then "aunt-in-law" else rel
    else base
  else if containsSub rel "step-" then
    if containsSub rel "parent" then
      if gender == "male" then "step-father"
      else if gender == "female" then "step-mother" else rel
    else if containsSub rel "child" then
      if gender == "male" then "step-son"
      else if gender == "female" then "step-daughter" else rel
    else if containsSub rel "sibling" then
      if gender == "male" then "step-brother"
      else if gender == "female" then "step-sister" else rel
    else base
  else base

/-- `_get_gender_specific_relationship(base_relationship, member)`. -/
def genderSpecific (base : String) (m : Member) : String :=
  match m.gender with
  | none => base
  | some gs =>
    if gs == "" then base
    else genderLabel base (pyLower gs) (pyLower base)

theorem findSome?_eq_none_iff {α β : Type} {f : α → Option β} {l : List α} :
    l.findSome? f = none ↔ ∀ x ∈ l, f x = none := by
  induction l with
  | nil => simp
  | cons hd tl ih =>
    rw [List.findSome?_cons]
    cases hf : f hd with
    | some r => simp [hf]
    | none => simp [hf, ih]

theorem findSome?_eq_some_ex {α β : Type} {f : α → Option β} {l : List α}
    {r : β} (h : l.findSome? f = some r) : ∃ x ∈ l, f x = some r := by
  induction l with
  | nil => simp [List.findSome?] at h
  | cons hd tl ih =>
    rw [List.findSome?_cons] at h
    cases hf : f hd with
    | some r' =>
      rw [hf] at h
      exact ⟨hd, List.mem_cons_self _ _, by simpa [hf] using h⟩
    | none =>
      rw [hf] at h
      obtain ⟨x, hx, hfx⟩ := ih h
      exact ⟨x, List.mem_cons_of_mem _ hx, hfx⟩

theorem lookupN_eq_some_mem {α : Type} {m : List (Nat × α)} {k : Nat} {v : α}
    (h : lookupN m k = some v) : (k, v) ∈ m := by
  unfold lookupN at h
  cases hf : m.find? (fun e => e.1 == k) with
  | none => rw [hf] at h; simp at h
  | some e =>
    rw [hf] at h
    have he : e ∈ m := List.mem_of_find?_eq_some hf
    have hk : e.1 = k := by
      have := List.find?_some hf
      simpa using this
    simp only [Option.map_some'] at h
    have : e = (k, v) := by
      cases e with
      | mk e1 e2 =>
        simp only at hk
        simp only [Option.some.injEq] at h
        rw [hk, h]
    rwa [this] at he

theorem lookupN_isSome_iff_keys {α : Type} {m : List (Nat × α)} {k : Nat} :
    (lookupN m k).isSome = true ↔ k ∈ keysOf m := by
  unfold lookupN keysOf
  rw [Option.isSome_map']
  constructor
  · intro h
    obtain ⟨e, hf⟩ := Option.isSome_iff_exists.1 h
    have he : e ∈ m := List.mem_of_find?_eq_some hf
    have hk : e.1 = k := by simpa using List.find?_some hf
    exact hk ▸ List.mem_map_of_mem _ he
  · intro h
    obtain ⟨e, he, hk⟩ := List.mem_map.1 h
    rw [Option.isSome_iff_ne_none]
    intro hn
    rw [List.find?_eq_none] at hn
    exact absurd (by simpa using hk) (by simpa using hn e he)

theorem lookupN_eq_none_keys {α : Type} {m : List (Nat × α)} {k : Nat}
    (h : lookupN m k = none) : k ∉ keysOf m := by
  intro hk
  have := lookupN_isSome_iff_keys.2 hk
  rw [h] at this
  simp at this

theorem mem_keys_lookupN_isSome {α : Type} {m : List (Nat × α)} {k : Nat}
    (h : k ∈ keysOf m) : ∃ v, lookupN m k = some v := by
  have := lookupN_isSome_iff_keys.2 h
  exact Option.isSome_iff_exists.1 this

theorem mem_lookupN_of_nodup {α : Type} {m : List (Nat × α)} {k : Nat} {v : α}
    (hnd : (keysOf m).Nodup) (h : (k, v) ∈ m) : lookupN m k = some v := by
  induction m with
  | nil => simp at h
  | cons hd tl ih =>
    unfold keysOf at hnd
    simp only [List.map_cons, List.nodup_cons] at hnd
    rcases List.mem_cons.1 h with rfl | htl
    · unfold lookupN
      simp
    · have hne : hd.1 ≠ k := by
        intro he
        exact hnd.1 (he ▸ (List.mem_map_of_mem _ htl : (k, v).1 ∈ _))
      have hb : (hd.1 == k) = false := by simpa using hne
      unfold lookupN
      rw [List.find?_cons, hb]
      exact ih hnd.2 htl

/-- C8: for every positive `n`, `_ordinal` renders `n` in decimal followed by
"th" whenever `n % 100` lies in `[10, 20]`, and otherwise by "st"/"nd"/"rd"
when `n % 10` is 1/2/3 and "th" in all other cases; in particular
`ordinal 1 = "1st"`, `ordinal 11 = "11th"`, `ordinal 21 = "21st"` and
`ordinal 112 = "112th"`. -/
theorem C8_ordinal_spec :
    (∀ n : Nat, 0 < n → 10 ≤ n % 100 → n % 100 ≤ 20 →
      ordinal n = Nat.repr n ++ "th") ∧
    (∀ n : Nat, 0 < n → ¬(10 ≤ n % 100 ∧ n % 100 ≤ 20) →
      (n % 10 = 1 → ordinal n = Nat.repr n ++ "st") ∧
      (n % 10 = 2 → ordinal n = Nat.repr n ++ "nd") ∧
      (n % 10 = 3 → ordinal n = Nat.repr n ++ "rd") ∧
      (n % 10 ≠ 1 → n % 10 ≠ 2 → n % 10 ≠ 3 → ordinal n = Nat.repr n ++ "th")) ∧
    ordinal 1 = "1st" ∧ ordinal 11 = "11th" ∧ ordinal 21 = "21st" ∧
    ordinal 112 = "112th" := by
  refine ⟨?_, ?_, by decide, by decide, by decide, by decide⟩
  · intro n _ h1 h2
    unfold ordinal
    rw [if_pos ⟨h1, h2⟩]
  · intro n _ hband
    refine ⟨?_, ?_, ?_, ?_⟩
    · intro h1
      unfold ordinal
      rw [if_neg hband, h1]
    · intro h2
      unfold ordinal
      rw [if_neg hband, h2]
    · intro h3
      unfold ordinal
      rw [if_neg hband, h3]
    · intro h1 h2 h3
      unfold ordinal
      rw [if_neg hband]
      have : n % 10 = 0 ∨ n % 10 = 4 ∨ n % 10 = 5 ∨ n % 10 = 6 ∨ n % 10 = 7 ∨
          n % 10 = 8 ∨ n % 10 = 9 := by omega
      rcases this with h | h | h | h | h | h | h <;> rw [h]

/-- Witness for C8 at concrete inputs. -/
theorem C8_ordinal_spec_witness :
    ordinal 14 = Nat.repr 14 ++ "th" ∧ ordinal 23 = Nat.repr 23 ++ "rd" ∧
    ordinal 30 = Nat.repr 30 ++ "th" :=
  ⟨C8_ordinal_spec.1 14 (by decide) (by decide) (by decide),
   (C8_ordinal_spec.2.1 23 (by decide) (by decide)).2.2.1 (by decide),
   (C8_ordinal_spec.2.1 30 (by decide) (by decide)).2.2.2
     (by decide) (by decide) (by decide)⟩

/-- C7: `relationship(A, A) = self`; for distinct members the direct cases are
decided in the order spouse edge, then child edge of `from` (label "parent"),
then parent edge of `from` (label "child"); hence a pair joined by both a
spouse edge and a parent-child edge is labelled "spouse". -/
theorem C7_direct_order :
    (∀ (g : Graph) (x : Nat), computeRelationship x x g = ("self", [x])) ∧
    (∀ (g : Graph) (a b : Nat), a ≠ b → (spousesD g a).contains b = true →
      computeRelationship a b g = ("spouse", [a, b])) ∧
    (∀ (g : Graph) (a b : Nat), a ≠ b → (spousesD g a).contains b = false →
      (childrenD g a).contains b = true →
      computeRelationship a b g = ("parent", [a, b])) ∧
    (∀ (g : Graph) (a b : Nat), a ≠ b → (spousesD g a).contains b = false →
      (childrenD g a).contains b = false → (parentsD g a).contains b = true →
      computeRelationship a b g = ("child", [a, b])) ∧
    (∀ (g : Graph) (a b : Nat), a ≠ b → (spousesD g a).contains b = true →
      ((childrenD g a).contains b = true ∨ (parentsD g a).contains b = true) →
      computeRelationship a b g = ("spouse", [a, b])) := by
  refine ⟨?_, ?_, ?_, ?_, ?_⟩
  · intro g x
    unfold computeRelationship
    rw [if_pos rfl]
  · intro g a b hne hsp
    unfold computeRelationship
    rw [if_neg hne, if_pos hsp]
  · intro g a b hne hsp hch
    unfold computeRelationship
    rw [if_neg hne, if_neg (by simpa using hsp), if_pos hch]
  · intro g a b hne hsp hch hpa
    unfold computeRelationship
    rw [if_neg hne, if_neg (by simpa using hsp), if_neg (by simpa using hch), if_pos hpa]
  · intro g a b hne hsp _
    unfold computeRelationship
    rw [if_neg hne, if_pos hsp]

/-- Witness for C7 on a concrete graph where members 0 and 1 are joined by
both a spouse edge and a parent-child edge. -/
theorem C7_direct_order_witness :
    computeRelationship 0 1
      { members := [(0, ⟨none⟩), (1, ⟨none⟩)],
        spouses := [(0, [1]), (1, [0])],
        parents := [(1, [0])],
        children := [(0, [1])] } = ("spouse", [0, 1]) :=
  C7_direct_order.2.2.2.2
    { members := [(0, ⟨none⟩), (1, ⟨none⟩)],
      spouses := [(0, [1]), (1, [0])],
      parents := [(1, [0])],
      children := [(0, [1])] } 0 1 (by decide) (by decide) (Or.inl (by decide))

theorem ccGo_eq_none_iff (mt : List (Nat × Nat)) (mf : List (Nat × Nat)) :
    ∀ best : Option (Nat × Nat × Nat),
    (ccGo mt mf best = none ↔ best = none ∧ ∀ e ∈ mf, lookupN mt e.1 = none) := by
  induction mf with
  | nil => intro best; simp [ccGo]
  | cons hd tl ih =>
    intro best
    cases hd with
    | mk y dy =>
      cases hl : lookupN mt y with
      | none =>
        rw [show ccGo mt ((y, dy) :: tl) best = ccGo mt tl best by
          simp [ccGo, hl]]
        rw [ih best]
        constructor
        · rintro ⟨hb, hall⟩
          refine ⟨hb, fun e he => ?_⟩
          rcases List.mem_cons.1 he with rfl | he'
          · exact hl
          · exact hall e he'
        · rintro ⟨hb, hall⟩
          exact ⟨hb, fun e he => hall e (List.mem_cons_of_mem _ he)⟩
      | some dy' =>
        have hstep : ∀ b' : Nat × Nat × Nat, ∃ b'' : Nat × Nat × Nat,
            ccGo mt ((y, dy) :: tl) (some b') = ccGo mt tl (some b'') := by
          intro b'
          cases b' with
          | mk c rest =>
            cases rest with
            | mk df dt =>
              by_cases hc : dy + dy' < df + dt
              · exact ⟨(y, dy, dy'), by simp [ccGo, hl, hc]⟩
              · exact ⟨(c, df, dt), by simp [ccGo, hl, hc]⟩
        constructor
        · intro h
          exfalso
          cases best with
          | none =>
            rw [show ccGo mt ((y, dy) :: tl) none = ccGo mt tl (some (y, dy, dy')) by
              simp [ccGo, hl]] at h
            have := (ih (some (y, dy, dy'))).1 h
            simp at this
          | some b' =>
            obtain ⟨b'', hb⟩ := hstep b'
            rw [hb] at h
            have := (ih (some b'')).1 h
            simp at this
        · rintro ⟨hb, hall⟩
          exfalso
          have := hall (y, dy) (List.mem_cons_self _ _)
          simp only at this
          rw [this] at hl
          exact Option.noConfusion hl

theorem ccGo_some_spec (mt : List (Nat × Nat)) (mf : List (Nat × Nat)) :
    ∀ (best : Option (Nat × Nat × Nat)) (c df dt : Nat),
    ccGo mt mf best = some (c, df, dt) →
    (best = some (c, df, dt) ∨ ((c, df) ∈ mf ∧ lookupN mt c = some dt)) ∧
    (∀ y dy dy', (y, dy) ∈ mf → lookupN mt y = some dy' → df + dt ≤ dy + dy') ∧
    (∀ cb dfb dtb, best = some (cb, dfb, dtb) → df + dt ≤ dfb + dtb) := by
  induction mf with
  | nil =>
    intro best c df dt h
    simp only [ccGo] at h
    refine ⟨Or.inl h, by simp, ?_⟩
    intro cb dfb dtb hb
    rw [hb] at h
    cases h
    exact le_refl _
  | cons hd tl ih =>
    intro best c df dt h
    cases hd with
    | mk y dy =>
      cases hl : lookupN mt y with
      | none =>
        rw [show ccGo mt ((y, dy) :: tl) best = ccGo mt tl best by
          simp [ccGo, hl]] at h
        obtain ⟨h1, h2, h3⟩ := ih best c df dt h
        refine ⟨?_, ?_, h3⟩
        · rcases h1 with h1 | ⟨hm, hlk⟩
          · exact Or.inl h1
          · exact Or.inr ⟨List.mem_cons_of_mem _ hm, hlk⟩
        · intro y' dy' dy'' hm hlk
          rcases List.mem_cons.1 hm with heq | hm'
          · cases heq
            rw [hlk] at hl
            exact Option.noConfusion hl
          · exact h2 y' dy' dy'' hm' hlk
      | some dy' =>
        have key : ∀ b'' : Nat × Nat × Nat,
            ccGo mt tl (some b'') = some (c, df, dt) →
            (b''.2.1 + b''.2.2 ≥ df + dt) ∧
            ((c, df, dt) = b'' ∨ ((c, df) ∈ tl ∧ lookupN mt c = some dt)) ∧
            (∀ y' dy₁ dy₂, (y', dy₁) ∈ tl → lookupN mt y' = some dy₂ →
              df + dt ≤ dy₁ + dy₂) := by
          intro b'' hb
          obtain ⟨h1, h2, h3⟩ := ih (some b'') c df dt hb
          refine ⟨h3 b''.1 b''.2.1 b''.2.2 (by simp), ?_, h2⟩
          rcases h1 with h1 | h1
          · exact Or.inl (Option.some.inj h1).symm
          · exact Or.inr h1
        cases best with
        | none =>
          rw [show ccGo mt ((y, dy) :: tl) none = ccGo mt tl (some (y, dy, dy')) by
            simp [ccGo, hl]] at h
          obtain ⟨hge, hor, hmin⟩ := key _ h
          refine ⟨?_, ?_, by simp⟩
          · rcases hor with hor | hor
            · simp only [Prod.mk.injEq] at hor
              obtain ⟨rfl, rfl, rfl⟩ := hor
              exact Or.inr ⟨List.mem_cons_self _ _, hl⟩
            · exact Or.inr ⟨List.mem_cons_of_mem _ hor.1, hor.2⟩
          · intro y' dy₁ dy₂ hm hlk
            rcases List.mem_cons.1 hm with heq | hm'
            · cases heq
              rw [hlk] at hl
              cases hl
              simpa using hge
            · exact hmin y' dy₁ dy₂ hm' hlk
        | some b' =>
          rcases b' with ⟨cb, dfb, dtb⟩
          by_cases hc : dy + dy' < dfb + dtb
          · rw [show ccGo mt ((y, dy) :: tl) (some (cb, dfb, dtb))
                = ccGo mt tl (some (y, dy, dy')) by simp [ccGo, hl, hc]] at h
            obtain ⟨hge, hor, hmin⟩ := key _ h
            refine ⟨?_, ?_, ?_⟩
            · rcases hor with hor | hor
              · simp only [Prod.mk.injEq] at hor
                obtain ⟨rfl, rfl, rfl⟩ := hor
                exact Or.inr ⟨List.mem_cons_self _ _, hl⟩
              · exact Or.inr ⟨List.mem_cons_of_mem _ hor.1, hor.2⟩
            · intro y' dy₁ dy₂ hm hlk
              rcases List.mem_cons.1 hm with heq | hm'
              · cases heq
                rw [hlk] at hl
                cases hl
                simpa using hge
              · exact hmin y' dy₁ dy₂ hm' hlk
            · intro cb' dfb' dtb' hbeq
              cases hbeq
              have : df + dt ≤ dy + dy' := by simpa using hge
              omega
          · rw [show ccGo mt ((y, dy) :: tl) (some (cb, dfb, dtb))
                = ccGo mt tl (some (cb, dfb, dtb)) by simp [ccGo, hl, hc]] at h
            obtain ⟨hge, hor, hmin⟩ := key _ h
            refine ⟨?_, ?_, ?_⟩
            · rcases hor with hor | hor
              · exact Or.inl (congrArg some hor.symm)
              · exact Or.inr ⟨List.mem_cons_of_mem _ hor.1, hor.2⟩
            · intro y' dy₁ dy₂ hm hlk
              rcases List.mem_cons.1 hm with heq | hm'
              · cases heq
                rw [hlk] at hl
                cases hl
                have : df + dt ≤ dfb + dtb := by simpa using hge
                omega
              · exact hmin y' dy₁ dy₂ hm' hlk
            · intro cb' dfb' dtb' hbeq
              cases hbeq
              simpa using hge

/-- C5: whenever the two members' ancestor maps share at least one member,
the closest-common-ancestor scan of `_compute_relationship` succeeds and
returns a member of both maps whose `distFrom + distTo` is minimal over all
members present in both maps, together with exactly those two distances. -/
theorem C5_closest_common_min (g : Graph) (a b : Nat)
    (hex : ∃ x, x ∈ keysOf (ancestorsList a g.parents) ∧
      x ∈ keysOf (ancestorsList b g.parents)) :
    ∃ c df dt,
      closestCommon (ancestorsList a g.parents) (ancestorsList b g.parents)
        = some (c, df, dt) ∧
      (c, df) ∈ ancestorsList a g.parents ∧
      lookupN (ancestorsList b g.parents) c = some dt ∧
      ∀ y dy dy', (y, dy) ∈ ancestorsList a g.parents →
        lookupN (ancestorsList b g.parents) y = some dy' → df + dt ≤ dy + dy' := by
  obtain ⟨x, hxf, hxt⟩ := hex
  obtain ⟨v, hv⟩ := mem_keys_lookupN_isSome hxt
  obtain ⟨e, he, hex1⟩ := List.mem_map.1 hxf
  cases h : closestCommon (ancestorsList a g.parents) (ancestorsList b g.parents) with
  | none =>
    exfalso
    have := (ccGo_eq_none_iff _ _ none).1 h
    have he' := this.2 e he
    rw [hex1, hv] at he'
    exact Option.noConfusion he'
  | some r =>
    rcases r with ⟨c, df, dt⟩
    obtain ⟨h1, h2, _⟩ := ccGo_some_spec _ _ none c df dt h
    rcases h1 with h1 | ⟨hm, hlk⟩
    · exact Option.noConfusion h1
    · exact ⟨c, df, dt, rfl, hm, hlk, fun y dy dy' hmem hl =>
        h2 y dy dy' hmem hl⟩

/-- Witness graph: 0 is the shared grandparent of 3 (via 1) and 4 (via 2). -/
def cousinGraph : Graph :=
  { members := [(0, ⟨none⟩), (1, ⟨none⟩), (2, ⟨none⟩), (3, ⟨none⟩), (4, ⟨none⟩)]
    spouses := [(0, []), (1, []), (2, []), (3, []), (4, [])]
    parents := [(0, []), (1, [0]), (2, [0]), (3, [1]), (4, [2])]
    children := [(0, [1, 2]), (1, [3]), (2, [4]), (3, []), (4, [])] }

/-- Witness for C5 on `cousinGraph`. -/
theorem C5_closest_common_min_witness :
    ∃ c df dt,
      closestCommon (ancestorsList 3 cousinGraph.parents)
        (ancestorsList 4 cousinGraph.parents) = some (c, df, dt) ∧
      (c, df) ∈ ancestorsList 3 cousinGraph.parents ∧
      lookupN (ancestorsList 4 cousinGraph.parents) c = some dt ∧
      ∀ y dy dy', (y, dy) ∈ ancestorsList 3 cousinGraph.parents →
        lookupN (ancestorsList 4 cousinGraph.parents) y = some dy' →
        df + dt ≤ dy + dy' := by
  have h1 : ancestorsList 3 cousinGraph.parents = [(1, 1), (0, 2)] := by
    repeat
      first
      | rfl
      | rw [bfsLoop]
      | simp [ancestorsList, expandStep, lookupD, cousinGraph]
  have h2 : ancestorsList 4 cousinGraph.parents = [(2, 1), (0, 2)] := by
    repeat
      first
      | rfl
      | rw [bfsLoop]
      | simp [ancestorsList, expandStep, lookupD, cousinGraph]
  exact C5_closest_common_min cousinGraph 3 4
    ⟨0, by rw [h1]; decide, by rw [h2]; decide⟩

theorem walkUp_zero {p : List (Nat × List Nat)} {s v : Nat} :
    walkUp p s 0 v = true ↔ v = s := by
  unfold walkUp
  simp

theorem walkUp_succ {p : List (Nat × List Nat)} {s v : Nat} {n : Nat} :
    walkUp p s (n + 1) v = true ↔
    ∃ u ∈ keysOf p, walkUp p s n u = true ∧ v ∈ lookupD p u [] := by
  conv_lhs => rw [walkUp]
  rw [List.any_eq_true]
  constructor
  · rintro ⟨u, hu, hw⟩
    rw [Bool.and_eq_true] at hw
    exact ⟨u, hu, hw.1, by simpa using hw.2⟩
  · rintro ⟨u, hu, hw, hv⟩
    exact ⟨u, hu, by rw [Bool.and_eq_true]; exact ⟨hw, by simpa using hv⟩⟩

theorem walkUp_self (p : List (Nat × List Nat)) (s : Nat) :
    walkUp p s 0 s = true := walkUp_zero.2 rfl

theorem mem_keysOf_of_lookupD_mem {p : List (Nat × List Nat)} {c v : Nat}
    (h : v ∈ lookupD p c []) : c ∈ keysOf p := by
  unfold lookupD at h
  cases hf : p.find? (fun e => e.1 == c) with
  | none => rw [hf] at h; simp at h
  | some e =>
    have he : e ∈ p := List.mem_of_find?_eq_some hf
    have hk : e.1 = c := by simpa using List.find?_some hf
    exact hk ▸ List.mem_map_of_mem _ he

theorem walkUp_step {p : List (Nat × List Nat)} {s c v : Nat} {n : Nat}
    (hw : walkUp p s n c = true) (hv : v ∈ lookupD p c []) :
    walkUp p s (n + 1) v = true :=
  walkUp_succ.2 ⟨c, mem_keysOf_of_lookupD_mem hv, hw, hv⟩

theorem walkUp_trans {p : List (Nat × List Nat)} {s x y : Nat} {i j : Nat}
    (hx : walkUp p s i x = true) (hy : walkUp p x j y = true) :
    walkUp p s (i + j) y = true := by
  induction j generalizing y with
  | zero =>
    rw [walkUp_zero] at hy
    subst hy
    exact hx
  | succ j ih =>
    obtain ⟨u, _, hu, hyv⟩ := walkUp_succ.1 hy
    exact walkUp_step (ih hu) hyv

/-- The queue of the ancestor BFS always holds at most two distance layers,
the smaller one in front. -/
def TwoLayer (q : List (Nat × Nat)) : Prop :=
  ∃ D qa qb, q = qa ++ qb ∧ (∀ e ∈ qa, e.2 = D) ∧ (∀ e ∈ qb, e.2 = D + 1)

theorem twoLayer_step {c D : Nat} {rest : List (Nat × Nat)}
    (h : TwoLayer ((c, D) :: rest)) :
    (∀ e ∈ (c, D) :: rest, D ≤ e.2) ∧
    (∀ L : List (Nat × Nat), (∀ e ∈ L, e.2 = D + 1) → TwoLayer (rest ++ L)) := by
  obtain ⟨D1, qa, qb, heq, ha, hb⟩ := h
  cases qa with
  | nil =>
    simp only [List.nil_append] at heq
    have hD : D = D1 + 1 := by
      have := hb (c, D) (heq ▸ List.mem_cons_self _ _)
      simpa using this
    have hrest : ∀ e ∈ rest, e.2 = D := by
      intro e he
      have : e ∈ qb := by rw [← heq]; exact List.mem_cons_of_mem _ he
      rw [hb e this, hD]
    constructor
    · intro e he
      rcases List.mem_cons.1 he with rfl | he'
      · exact le_refl _
      · rw [hrest e he']
    · intro L hL
      exact ⟨D, rest, L, rfl, hrest, hL⟩
  | cons e0 qa' =>
    have he0 : e0 = (c, D) := by
      have : ((c, D) :: rest) = e0 :: (qa' ++ qb) := by simpa using heq
      exact (List.cons.injEq _ _ _ _ ▸ this).1.symm
    have hD : D1 = D := by
      have := ha e0 (List.mem_cons_self _ _)
      rw [he0] at this
      exact this.symm
    have hrest : rest = qa' ++ qb := by
      have : ((c, D) :: rest) = e0 :: (qa' ++ qb) := by simpa using heq
      exact (List.cons.injEq _ _ _ _ ▸ this).2
    constructor
    · intro e he
      rcases List.mem_cons.1 he with rfl | he'
      · exact le_refl _
      · rw [hrest] at he'
        rcases List.mem_append.1 he' with h' | h'
        · rw [ha e (List.mem_cons_of_mem _ h'), hD]
        · rw [hb e h', hD]
          omega
    · intro L hL
      refine ⟨D, qa', qb ++ L, by rw [hrest, List.append_assoc], ?_, ?_⟩
      · intro e he
        rw [ha e (List.mem_cons_of_mem _ he), hD]
      · intro e he
        rcases List.mem_append.1 he with h' | h'
        · rw [hb e h', hD]
        · exact hL e h'

theorem expandStep_vis_mono (d : Nat) (ps : List Nat) (vis : Finset Nat)
    (acc q : List (Nat × Nat)) : vis ⊆ (expandStep d ps vis acc q).1 := by
  obtain ⟨news, _, _, h1, _, _⟩ := expandStep_spec d ps vis acc q
  rw [h1]
  exact Finset.subset_union_left

theorem expandStep_covers (d : Nat) (ps : List Nat) (vis : Finset Nat)
    (acc q : List (Nat × Nat)) :
    ∀ x ∈ ps, x ∈ (expandStep d ps vis acc q).1 := by
  induction ps generalizing vis acc q with
  | nil => simp
  | cons pid rest ih =>
    intro x hx
    by_cases h : pid ∈ vis
    · rw [show expandStep d (pid :: rest) vis acc q = expandStep d rest vis acc q by
        simp [expandStep, h]]
      rcases List.mem_cons.1 hx with rfl | hx'
      · exact expandStep_vis_mono d rest vis acc q h
      · exact ih vis acc q x hx'
    · rw [show expandStep d (pid :: rest) vis acc q
          = expandStep d rest (insert pid vis) (acc ++ [(pid, d + 1)])
              (q ++ [(pid, d + 1)]) by simp [expandStep, h]]
      rcases List.mem_cons.1 hx with rfl | hx'
      · exact expandStep_vis_mono d rest _ _ _ (Finset.mem_insert_self _ _)
      · exact ih _ _ _ x hx'

/-- Loop invariant of the ancestor BFS: visited is exactly the start plus the
recorded keys (without duplicates), queue entries are recorded, recorded
distances are lengths of actual walks and minimal, every visited node with an
unvisited parent is still queued, and the queue spans at most two layers. -/
def BfsInv (p : List (Nat × List Nat)) (s : Nat) (queue : List (Nat × Nat))
    (vis : Finset Nat) (acc : List (Nat × Nat)) : Prop :=
  (∀ x, x ∈ vis ↔ (x = s ∨ x ∈ keysOf acc)) ∧
  (s :: keysOf acc).Nodup ∧
  (∀ e ∈ queue, e = (s, 0) ∨ e ∈ acc) ∧
  (∀ e ∈ acc, walkUp p s e.2 e.1 = true) ∧
  (∀ e ∈ acc, ∀ k, walkUp p s k e.1 = true → e.2 ≤ k) ∧
  (∀ x ∈ vis, ∀ pa ∈ lookupD p x [], pa ∈ vis ∨ ∃ dq, (x, dq) ∈ queue) ∧
  TwoLayer queue

/-- What the finished ancestor map satisfies: no duplicate keys, the start
absent, recorded distances are minimal walk lengths, and every node reachable
by a walk is recorded (or is the start). -/
def BfsPost (p : List (Nat × List Nat)) (s : Nat) (acc : List (Nat × Nat)) : Prop :=
  (s :: keysOf acc).Nodup ∧
  (∀ e ∈ acc, walkUp p s e.2 e.1 = true ∧
    ∀ k, walkUp p s k e.1 = true → e.2 ≤ k) ∧
  (∀ v k, walkUp p s k v = true → v = s ∨ v ∈ keysOf acc)

theorem keysOf_append {α : Type} (l1 l2 : List (Nat × α)) :
    keysOf (l1 ++ l2) = keysOf l1 ++ keysOf l2 := by
  unfold keysOf
  exact List.map_append _ _ _

theorem keysOf_pairmap (news : List Nat) (d : Nat) :
    keysOf (news.map (fun x => (x, d))) = news := by
  induction news with
  | nil => rfl
  | cons h t ih =>
    unfold keysOf at ih ⊢
    simp only [List.map_cons, List.cons.injEq]
    exact ⟨trivial, ih⟩

theorem bfsLoop_post (p : List (Nat × List Nat)) (s : Nat) :
    ∀ (queue : List (Nat × Nat)) (vis : Finset Nat) (acc : List (Nat × Nat)),
    BfsInv p s queue vis acc → BfsPost p s (bfsLoop p queue vis acc) := by
  intro queue vis acc
  induction queue, vis, acc using bfsLoop.induct p with
  | case1 vis acc =>
    intro hinv
    obtain ⟨hvis, hnd, _, hsound, hmin, hfront, _⟩ := hinv
    rw [show bfsLoop p [] vis acc = acc from by rw [bfsLoop]]
    have visAll : ∀ (k : Nat) (v : Nat), walkUp p s k v = true → v ∈ vis := by
      intro k
      induction k with
      | zero =>
        intro v hw
        rw [walkUp_zero] at hw
        subst hw
        exact (hvis v).2 (Or.inl rfl)
      | succ k ihk =>
        intro v hw
        obtain ⟨u, _, hwu, hvpar⟩ := walkUp_succ.1 hw
        rcases hfront u (ihk u hwu) v hvpar with h' | ⟨dq, hdq⟩
        · exact h'
        · exact absurd hdq (List.not_mem_nil _)
    exact ⟨hnd, fun e he => ⟨hsound e he, hmin e he⟩,
      fun v k hw => (hvis v).1 (visAll k v hw)⟩
  | case2 c d rest vis acc r ih =>
    intro hinv
    obtain ⟨hvis, hnd, hq, hsound, hmin, hfront, htl⟩ := hinv
    obtain ⟨news, hndnews, hfresh, h1, h2, h3⟩ :=
      expandStep_spec d (lookupD p c []) vis acc rest
    have hkeysacc : ∀ y ∈ keysOf acc, y ∈ vis := fun y hy => (hvis y).2 (Or.inr hy)
    have hsvis : s ∈ vis := (hvis s).2 (Or.inl rfl)
    have hcd := hq (c, d) (List.mem_cons_self _ _)
    have hWc : walkUp p s d c = true := by
      rcases hcd with hcd | hcd
      · rw [Prod.mk.injEq] at hcd
        rw [hcd.1, hcd.2]
        exact walkUp_self p s
      · exact hsound (c, d) hcd
    have hminc : ∀ k, walkUp p s k c = true → d ≤ k := by
      rcases hcd with hcd | hcd
      · rw [Prod.mk.injEq] at hcd
        rw [hcd.2]
        intro k _
        exact Nat.zero_le k
      · exact hmin (c, d) hcd
    obtain ⟨hfloor, htlnext⟩ := twoLayer_step htl
    have noShort : ∀ (k : Nat) (v : Nat), v ∉ vis → walkUp p s k v = true →
        d + 1 ≤ k := by
      intro k
      induction k with
      | zero =>
        intro v hv hw
        rw [walkUp_zero] at hw
        subst hw
        exact absurd hsvis hv
      | succ k ihk =>
        intro v hv hw
        obtain ⟨u, _, hwu, hvpar⟩ := walkUp_succ.1 hw
        by_cases huv : u ∈ vis
        · rcases hfront u huv v hvpar with h' | ⟨du, hdu⟩
          · exact absurd h' hv
          · have hd1 : d ≤ du := by
              have := hfloor (u, du) hdu
              simpa using this
            have hd2 : du ≤ k := by
              rcases hq (u, du) hdu with he | he
              · rw [Prod.mk.injEq] at he
                rw [he.2]
                exact Nat.zero_le k
              · exact hmin (u, du) he k hwu
            omega
        · have := ihk u huv hwu
          omega
    rw [show bfsLoop p ((c, d) :: rest) vis acc
        = bfsLoop p (expandStep d (lookupD p c []) vis acc rest).2.2
            (expandStep d (lookupD p c []) vis acc rest).1
            (expandStep d (lookupD p c []) vis acc rest).2.1 from by rw [bfsLoop]]
    apply ih
    rw [h1, h2, h3]
    have hkeysnew : keysOf (acc ++ news.map fun x => (x, d + 1))
        = keysOf acc ++ news := by
      rw [keysOf_append, keysOf_pairmap]
    refine ⟨?_, ?_, ?_, ?_, ?_, ?_, ?_⟩
    · intro x
      rw [hkeysnew]
      simp only [Finset.mem_union, List.mem_toFinset, List.mem_append]
      rw [hvis x]
      tauto
    · rw [hkeysnew]
      rw [show s :: (keysOf acc ++ news) = (s :: keysOf acc) ++ news from rfl]
      rw [List.nodup_append]
      refine ⟨hnd, hndnews, ?_⟩
      intro y hy hynews
      rcases List.mem_cons.1 hy with rfl | hy'
      · exact (hfresh y hynews).2 hsvis
      · exact (hfresh y hynews).2 (hkeysacc y hy')
    · intro e he
      rcases List.mem_append.1 he with he' | he'
      · rcases hq e (List.mem_cons_of_mem _ he') with h' | h'
        · exact Or.inl h'
        · exact Or.inr (List.mem_append_left _ h')
      · exact Or.inr (List.mem_append_right _ he')
    · intro e he
      rcases List.mem_append.1 he with he' | he'
      · exact hsound e he'
      · obtain ⟨x, hx, rfl⟩ := List.mem_map.1 he'
        exact walkUp_step hWc (hfresh x hx).1
    · intro e he
      rcases List.mem_append.1 he with he' | he'
      · exact hmin e he'
      · obtain ⟨x, hx, rfl⟩ := List.mem_map.1 he'
        intro k hw
        exact noShort k x (hfresh x hx).2 hw
    · intro x hx pa hpa
      rcases Finset.mem_union.1 hx with hx' | hx'
      · by_cases hxc : x = c
        · subst hxc
          refine Or.inl ?_
          rw [← h1]
          exact expandStep_covers d (lookupD p x []) vis acc rest pa hpa
        · rcases hfront x hx' pa hpa with h' | ⟨dq, hdq⟩
          · exact Or.inl (Finset.mem_union_left _ h')
          · rcases List.mem_cons.1 hdq with h'' | h''
            · rw [Prod.mk.injEq] at h''
              exact absurd h''.1 hxc
            · exact Or.inr ⟨dq, List.mem_append_left _ h''⟩
      · refine Or.inr ⟨d + 1, List.mem_append_right _ ?_⟩
        exact List.mem_map.2 ⟨x, List.mem_toFinset.1 hx', rfl⟩
    · apply htlnext
      intro e he
      obtain ⟨x, _, rfl⟩ := List.mem_map.1 he
      rfl

theorem ancestorsList_post (s : Nat) (p : List (Nat × List Nat)) :
    BfsPost p s (ancestorsList s p) := by
  apply bfsLoop_post
  refine ⟨?_, ?_, ?_, ?_, ?_, ?_, ?_⟩
  · intro x
    simp [keysOf]
  · simp [keysOf]
  · intro e he
    simp only [List.mem_singleton] at he
    exact Or.inl he
  · intro e he
    simp at he
  · intro e he
    simp at he
  · intro x hx pa _
    have : x = s := by simpa using hx
    exact Or.inr ⟨0, by rw [this]; exact List.mem_singleton.2 rfl⟩
  · exact ⟨0, [(s, 0)], [], by simp, by simp, by simp⟩

theorem ancestors_keys_nodup (s : Nat) (p : List (Nat × List Nat)) :
    (keysOf (ancestorsList s p)).Nodup :=
  (List.nodup_cons.1 (ancestorsList_post s p).1).2

theorem start_not_mem_ancestors (s : Nat) (p : List (Nat × List Nat)) :
    s ∉ keysOf (ancestorsList s p) :=
  (List.nodup_cons.1 (ancestorsList_post s p).1).1

theorem mem_ancestors_iff {s v d : Nat} {p : List (Nat × List Nat)} :
    (v, d) ∈ ancestorsList s p ↔ (v ≠ s ∧ minWalk p s v d) := by
  have post := ancestorsList_post s p
  constructor
  · intro he
    have hv : v ∈ keysOf (ancestorsList s p) := List.mem_map_of_mem _ he
    have hne : v ≠ s := by
      intro h
      exact start_not_mem_ancestors s p (h ▸ hv)
    obtain ⟨hw, hmin⟩ := post.2.1 (v, d) he
    refine ⟨hne, hw, ?_⟩
    intro k hk
    by_contra hcon
    rw [Bool.not_eq_false] at hcon
    exact absurd (hmin k hcon) (by omega)
  · rintro ⟨hne, hw, hmin⟩
    rcases post.2.2 v d hw with h | h
    · exact absurd h hne
    · obtain ⟨e, he, hefst⟩ := List.mem_map.1 h
      obtain ⟨hw', hmin'⟩ := post.2.1 e he
      have h1 : e.2 ≤ d := hmin' d (hefst ▸ hw)
      have h2 : ¬ e.2 < d := by
        intro hlt
        have := hmin e.2 hlt
        rw [hefst] at hw'
        rw [hw'] at this
        exact Bool.noConfusion this
      have : e = (v, d) := by
        cases e with
        | mk e1 e2 =>
          simp only at hefst
          rw [hefst]
          have : e2 = d := by omega
          rw [this]
      rwa [this] at he

theorem lookupN_ancestors_iff {s v d : Nat} {p : List (Nat × List Nat)} :
    lookupN (ancestorsList s p) v = some d ↔ (v ≠ s ∧ minWalk p s v d) := by
  constructor
  · intro h
    exact mem_ancestors_iff.1 (lookupN_eq_some_mem h)
  · intro h
    exact mem_lookupN_of_nodup (ancestors_keys_nodup s p) (mem_ancestors_iff.2 h)

theorem keys_ancestors_iff {s v : Nat} {p : List (Nat × List Nat)} :
    v ∈ keysOf (ancestorsList s p) ↔ (v ≠ s ∧ ∃ k, walkUp p s k v = true) := by
  constructor
  · intro h
    obtain ⟨e, he, hefst⟩ := List.mem_map.1 h
    have := mem_ancestors_iff.1 (show (v, e.2) ∈ ancestorsList s p by
      cases e with
      | mk e1 e2 => simp only at hefst; rwa [hefst] at he)
    exact ⟨this.1, e.2, this.2.1⟩
  · rintro ⟨hne, k, hw⟩
    rcases (ancestorsList_post s p).2.2 v k hw with h | h
    · exact absurd h hne
    · exact h

theorem reach_extend {p : List (Nat × List Nat)} {a x y : Nat}
    (hx : x ∈ keysOf (ancestorsList a p)) (hy : y ∈ keysOf (ancestorsList x p)) :
    y = a ∨ y ∈ keysOf (ancestorsList a p) := by
  obtain ⟨_, i, hwi⟩ := keys_ancestors_iff.1 hx
  obtain ⟨_, j, hwj⟩ := keys_ancestors_iff.1 hy
  by_cases h : y = a
  · exact Or.inl h
  · exact Or.inr (keys_ancestors_iff.2 ⟨h, i + j, walkUp_trans hwi hwj⟩)

theorem reach_parent_step {p : List (Nat × List Nat)} {a pid y : Nat}
    (hp : pid ∈ lookupD p a []) (hy : y ∈ keysOf (ancestorsList pid p)) :
    y = a ∨ y ∈ keysOf (ancestorsList a p) := by
  obtain ⟨_, j, hwj⟩ := keys_ancestors_iff.1 hy
  have h1 : walkUp p a 1 pid = true := walkUp_step (walkUp_self p a) hp
  by_cases h : y = a
  · exact Or.inl h
  · exact Or.inr (keys_ancestors_iff.2 ⟨h, 1 + j, walkUp_trans h1 hwj⟩)

/-- C6: the ancestor-distance BFS terminates on every finite graph, including
the artificial 2-cycle (`ancestorsList` is a total function whose recursion is
justified by the visited-set measure, no fuel involved), and the start member
itself never appears in the returned ancestor map; on the cycle
`0 parent-of 1, 1 parent-of 0` it returns exactly the other node at
distance 1. -/
theorem C6_bfs_terminates_start_excluded :
    (∀ (s : Nat) (p : List (Nat × List Nat)), s ∉ keysOf (ancestorsList s p)) ∧
    ancestorsList 0 [(0, [1]), (1, [0])] = [(1, 1)] ∧
    ancestorsList 1 [(0, [1]), (1, [0])] = [(0, 1)] := by
  refine ⟨start_not_mem_ancestors, ?_, ?_⟩
  · repeat
      first
      | rfl
      | rw [bfsLoop]
      | simp [ancestorsList, expandStep, lookupD]
  · repeat
      first
      | rfl
      | rw [bfsLoop]
      | simp [ancestorsList, expandStep, lookupD]

theorem lookupN_eq_none_iff_keys {α : Type} {m : List (Nat × α)} {k : Nat} :
    lookupN m k = none ↔ k ∉ keysOf m := by
  constructor
  · exact lookupN_eq_none_keys
  · intro h
    cases hl : lookupN m k with
    | none => rfl
    | some v =>
      exact absurd (lookupN_isSome_iff_keys.1 (by rw [hl]; rfl)) h

/-- The labels the spec's §4.4 steps 5-6 prescribe for a descendant at
minimal ancestor distance `d`. -/
def descendantLabel (d : Nat) : String :=
  if d = 1 then "child" else if d = 2 then "grandchild"
  else greats (d - 2) ++ "grandchild"

/-- Symmetric ancestor-side labels. -/
def ancestorLabel (d : Nat) : String :=
  if d = 1 then "parent" else if d = 2 then "grandparent"
  else greats (d - 2) ++ "grandparent"

/-- The malformed 2-cycle used by the spec's termination test: 0 parent-of 1
and 1 parent-of 0 (built exactly as `_build_relationship_graph` would). -/
def cycleGraph : Graph :=
  { members := [(0, ⟨none⟩), (1, ⟨none⟩)]
    spouses := [(0, []), (1, [])]
    parents := [(0, [1]), (1, [0])]
    children := [(0, [1]), (1, [0])] }

/-- Counterexample to C4 as stated: in `cycleGraph` member 1 is reachable from
member 0 through parent edges with minimal hop count 1 and there is no spouse
edge, so the claim requires the label "child"; the code answers "parent"
because the one-hop child edge is tested first. -/
theorem C4_counterexample_cycle :
    (spousesD cycleGraph 0).contains 1 = false ∧
    minWalk cycleGraph.parents 0 1 1 ∧
    computeRelationship 0 1 cycleGraph = ("parent", [0, 1]) ∧
    ("parent", [0, 1]).1 ≠ "child" := by
  refine ⟨by decide, ⟨by decide, ?_⟩, by decide, by decide⟩
  intro k hk
  interval_cases k
  decide

/-- Parent-edge chain A→B→C→D as members 0→1→2→3. -/
def chainGraph : Graph :=
  { members := [(0, ⟨none⟩), (1, ⟨none⟩), (2, ⟨none⟩), (3, ⟨none⟩)]
    spouses := [(0, []), (1, []), (2, []), (3, [])]
    parents := [(0, []), (1, [0]), (2, [1]), (3, [2])]
    children := [(0, [1]), (1, [2]), (2, [3]), (3, [])] }

/-- C4 as amended: with no spouse edge and no recorded child edge from `from`
to `to`, a minimal parent-edge distance d from `from` up to `to` yields
child/grandchild/great-…grandchild; symmetrically (additionally requiring that
`to` is not an ancestor of `from`, since the descendant test runs first) for
parent/grandparent/great-…grandparent; and on the chain 0→1→2→3 the labels are
great-grandparent and great-grandchild. -/
theorem C4_amended_chain_labels :
    (∀ (g : Graph) (a b d : Nat), a ≠ b →
      (spousesD g a).contains b = false →
      (childrenD g a).contains b = false →
      minWalk g.parents a b d →
      (computeRelationship a b g).1 = descendantLabel d) ∧
    (∀ (g : Graph) (a b d : Nat), a ≠ b →
      (spousesD g a).contains b = false →
      (childrenD g a).contains b = false →
      b ∉ keysOf (ancestorsList a g.parents) →
      minWalk g.parents b a d →
      (computeRelationship a b g).1 = ancestorLabel d) ∧
    computeRelationship 0 3 chainGraph = ("great-grandparent", [0, 1, 2, 3]) ∧
    computeRelationship 3 0 chainGraph = ("great-grandchild", [3, 2, 1, 0]) := by
  refine ⟨?_, ?_, ?_, ?_⟩
  · intro g a b d hne hsp hch hmw
    have hd0 : d ≠ 0 := by
      intro h
      rw [h] at hmw
      exact hne (walkUp_zero.1 hmw.1).symm
    have hlk : lookupN (ancestorsList a g.parents) b = some d :=
      lookupN_ancestors_iff.2 ⟨Ne.symm hne, hmw⟩
    by_cases hpa : (parentsD g a).contains b = true
    · have hw1 : walkUp g.parents a 1 b = true :=
        walkUp_step (walkUp_self _ _) (by simpa using hpa)
      have hd1 : d = 1 := by
        by_contra hd1
        have hgt : 1 < d := by omega
        have := hmw.2 1 hgt
        rw [hw1] at this
        exact Bool.noConfusion this
      subst hd1
      simp only [computeRelationship, if_neg hne, hsp, hch, hpa, Bool.false_eq_true,
        if_false, if_true, descendantLabel]
    · have hpa' : (parentsD g a).contains b = false := by
        cases h : (parentsD g a).contains b
        · rfl
        · exact absurd h hpa
      simp only [computeRelationship, if_neg hne, hsp, hpa', hch, Bool.false_eq_true,
        if_false, hlk]
      unfold descendantLabel
      by_cases hd1 : d = 1
      · subst hd1; simp
      · by_cases hd2 : d = 2
        · subst hd2; simp
        · simp [hd1, hd2]
  · intro g a b d hne hsp hch hkeys hmw
    have hd0 : d ≠ 0 := by
      intro h
      rw [h] at hmw
      exact hne (walkUp_zero.1 hmw.1)
    have hlkF : lookupN (ancestorsList a g.parents) b = none :=
      lookupN_eq_none_iff_keys.2 hkeys
    have hlkT : lookupN (ancestorsList b g.parents) a = some d :=
      lookupN_ancestors_iff.2 ⟨hne, hmw⟩
    have hpa' : (parentsD g a).contains b = false := by
      cases h : (parentsD g a).contains b
      · rfl
      · exfalso
        have hw1 : walkUp g.parents a 1 b = true :=
          walkUp_step (walkUp_self _ _) (by simpa using h)
        exact hkeys (keys_ancestors_iff.2 ⟨Ne.symm hne, 1, hw1⟩)
    simp only [computeRelationship, if_neg hne, hsp, hch, hpa', Bool.false_eq_true,
      if_false, hlkF, hlkT]
    unfold ancestorLabel
    by_cases hd1 : d = 1
    · subst hd1; simp
    · by_cases hd2 : d = 2
      · subst hd2; simp
      · simp [hd1, hd2]
  · have h1 : ancestorsList 0 [(0, []), (1, [0]), (2, [1]), (3, [2])] = [] := by
      repeat
        first
        | rfl
        | rw [bfsLoop]
        | simp [ancestorsList, expandStep, lookupD]
    have h2 : ancestorsList 3 [(0, []), (1, [0]), (2, [1]), (3, [2])]
        = [(2, 1), (1, 2), (0, 3)] := by
      repeat
        first
        | rfl
        | rw [bfsLoop]
        | simp [ancestorsList, expandStep, lookupD]
    have h3 : findPathChildren 0 3 [(0, [1]), (1, [2]), (2, [3]), (3, [])] 3
        = [1, 2, 3] := by
      repeat
        first
        | rfl
        | rw [pathLoop]
        | simp [findPathChildren, pathExpand, lookupD]
    simp [computeRelationship, chainGraph, h1, h2, h3, spousesD, childrenD, parentsD,
      lookupD, lookupN, greats]
  · have h1 : ancestorsList 3 [(0, []), (1, [0]), (2, [1]), (3, [2])]
        = [(2, 1), (1, 2), (0, 3)] := by
      repeat
        first
        | rfl
        | rw [bfsLoop]
        | simp [ancestorsList, expandStep, lookupD]
    have h3 : findPathParents 3 0 [(0, []), (1, [0]), (2, [1]), (3, [2])] 3
        = [2, 1, 0] := by
      repeat
        first
        | rfl
        | rw [pathLoop]
        | simp [findPathParents, pathExpand, lookupD]
    simp [computeRelationship, chainGraph, h1, h3, spousesD, childrenD, parentsD,
      lookupD, lookupN, greats]

instance (p : List (Nat × List Nat)) (s v d : Nat) : Decidable (minWalk p s v d) := by
  unfold minWalk
  infer_instance

/-- Witness for C4 (amended) on the chain graph. -/
theorem C4_amended_chain_labels_witness :
    (computeRelationship 3 0 chainGraph).1 = descendantLabel 3 ∧
    (computeRelationship 0 3 chainGraph).1 = ancestorLabel 3 := by
  have hanc : ancestorsList 0 chainGraph.parents = [] := by
    repeat
      first
      | rfl
      | rw [bfsLoop]
      | simp [ancestorsList, expandStep, lookupD, chainGraph]
  refine ⟨?_, ?_⟩
  · exact C4_amended_chain_labels.1 chainGraph 3 0 3 (by decide) (by decide)
      (by decide) (by decide)
  · exact C4_amended_chain_labels.2.1 chainGraph 0 3 3 (by decide) (by decide)
      (by decide) (by rw [hanc]; decide) (by decide)

/-- The ", once/twice/N times removed" suffix of §4.4 step 8. -/
def removalSuffix : Nat → String
  | 0 => ""
  | 1 => ", once removed"
  | 2 => ", twice removed"
  | n => ", " ++ Nat.repr n ++ " times removed"

theorem collateralResult_cousin (a b : Nat) (g : Graph) (cca df dt : Nat)
    (h2f : 2 ≤ df) (h2t : 2 ≤ dt) :
    collateralResult a b g cca df dt
      = some (ordinal (min df dt - 1) ++ " cousin"
          ++ removalSuffix (max df dt - min df dt), [a, cca, b]) := by
  unfold collateralResult
  rw [if_neg (by omega), if_neg (by omega), if_neg (by omega), if_neg (by omega),
    if_neg (by omega), if_pos ⟨h2f, h2t⟩]
  simp only []
  by_cases h0 : max df dt - min df dt = 0
  · rw [h0]
    rw [if_pos rfl]
    unfold removalSuffix
    rw [String.append_empty]
  · by_cases h1 : max df dt - min df dt = 1
    · rw [h1]
      rw [if_neg (by omega), if_pos rfl]
      unfold removalSuffix
      rw [show (" cousin, once removed" : String)
          = " cousin" ++ ", once removed" from by decide, ← String.append_assoc]
    · by_cases h2 : max df dt - min df dt = 2
      · rw [h2]
        rw [if_neg (by omega), if_neg (by omega), if_pos rfl]
        unfold removalSuffix
        rw [show (" cousin, twice removed" : String)
            = " cousin" ++ ", twice removed" from by decide, ← String.append_assoc]
      · rw [if_neg h0, if_neg h1, if_neg h2]
        have : removalSuffix (max df dt - min df dt)
            = ", " ++ Nat.repr (max df dt - min df dt) ++ " times removed" := by
          unfold removalSuffix
          split
          · omega
          · omega
          · omega
          · rfl
        rw [this]
        simp only [String.append_assoc]
        congr 1

/-- Chains of length three under a shared ancestor 0: members 3 and 4 are the
grandchildren's children (second cousins at 5, 6; 3 vs 6 once removed). -/
def cousin2Graph : Graph :=
  { members := [(0, ⟨none⟩), (1, ⟨none⟩), (2, ⟨none⟩), (3, ⟨none⟩), (4, ⟨none⟩),
      (5, ⟨none⟩), (6, ⟨none⟩)]
    spouses := [(0, []), (1, []), (2, []), (3, []), (4, []), (5, []), (6, [])]
    parents := [(0, []), (1, [0]), (2, [0]), (3, [1]), (4, [2]), (5, [3]), (6, [4])]
    children := [(0, [1, 2]), (1, [3]), (2, [4]), (3, [5]), (4, [6]), (5, []), (6, [])] }

/-- C3: with no direct edge, neither member an ancestor of the other, and the
selected closest common ancestor at distances df ≥ 2 and dt ≥ 2, the label is
`ordinal (min df dt - 1) ++ " cousin"` with the once/twice/N-times-removed
suffix for |df - dt|; in particular both grandchildren of a shared
grandparent are "1st cousin", both great-grandchildren are "2nd cousin", and
a grandchild against a great-grandchild is "1st cousin, once removed". -/
theorem C3_cousin_degree_removal :
    (∀ (g : Graph) (a b cca df dt : Nat), a ≠ b →
      (spousesD g a).contains b = false →
      (childrenD g a).contains b = false →
      (parentsD g a).contains b = false →
      b ∉ keysOf (ancestorsList a g.parents) →
      a ∉ keysOf (ancestorsList b g.parents) →
      closestCommon (ancestorsList a g.parents) (ancestorsList b g.parents)
        = some (cca, df, dt) →
      2 ≤ df → 2 ≤ dt →
      computeRelationship a b g
        = (ordinal (min df dt - 1) ++ " cousin"
            ++ removalSuffix (max df dt - min df dt), [a, cca, b])) ∧
    computeRelationship 3 4 cousinGraph = ("1st cousin", [3, 0, 4]) ∧
    computeRelationship 5 6 cousin2Graph = ("2nd cousin", [5, 0, 6]) ∧
    computeRelationship 3 6 cousin2Graph = ("1st cousin, once removed", [3, 0, 6]) := by
  refine ⟨?_, ?_, ?_, ?_⟩
  · intro g a b cca df dt hne hsp hch hpa hkF hkT hcc h2f h2t
    have hlkF : lookupN (ancestorsList a g.parents) b = none :=
      lookupN_eq_none_iff_keys.2 hkF
    have hlkT : lookupN (ancestorsList b g.parents) a = none :=
      lookupN_eq_none_iff_keys.2 hkT
    simp only [computeRelationship, if_neg hne, hsp, hch, hpa, Bool.false_eq_true,
      if_false, hlkF, hlkT, hcc, collateralResult_cousin a b g cca df dt h2f h2t]
  · have h1 : ancestorsList 3 [(0, []), (1, [0]), (2, [0]), (3, [1]), (4, [2])]
        = [(1, 1), (0, 2)] := by
      repeat
        first
        | rfl
        | rw [bfsLoop]
        | simp [ancestorsList, expandStep, lookupD]
    have h2 : ancestorsList 4 [(0, []), (1, [0]), (2, [0]), (3, [1]), (4, [2])]
        = [(2, 1), (0, 2)] := by
      repeat
        first
        | rfl
        | rw [bfsLoop]
        | simp [ancestorsList, expandStep, lookupD]
    simp [computeRelationship, cousinGraph, h1, h2, spousesD, childrenD, parentsD,
      lookupD, lookupN, closestCommon, ccGo, collateralResult, ordinal, Nat.repr]
    decide
  · have h1 : ancestorsList 5
        [(0, []), (1, [0]), (2, [0]), (3, [1]), (4, [2]), (5, [3]), (6, [4])]
        = [(3, 1), (1, 2), (0, 3)] := by
      repeat
        first
        | rfl
        | rw [bfsLoop]
        | simp [ancestorsList, expandStep, lookupD]
    have h2 : ancestorsList 6
        [(0, []), (1, [0]), (2, [0]), (3, [1]), (4, [2]), (5, [3]), (6, [4])]
        = [(4, 1), (2, 2), (0, 3)] := by
      repeat
        first
        | rfl
        | rw [bfsLoop]
        | simp [ancestorsList, expandStep, lookupD]
    simp [computeRelationship, cousin2Graph, h1, h2, spousesD, childrenD, parentsD,
      lookupD, lookupN, closestCommon, ccGo, collateralResult, ordinal, Nat.repr]
    decide
  · have h1 : ancestorsList 3
        [(0, []), (1, [0]), (2, [0]), (3, [1]), (4, [2]), (5, [3]), (6, [4])]
        = [(1, 1), (0, 2)] := by
      repeat
        first
        | rfl
        | rw [bfsLoop]
        | simp [ancestorsList, expandStep, lookupD]
    have h2 : ancestorsList 6
        [(0, []), (1, [0]), (2, [0]), (3, [1]), (4, [2]), (5, [3]), (6, [4])]
        = [(4, 1), (2, 2), (0, 3)] := by
      repeat
        first
        | rfl
        | rw [bfsLoop]
        | simp [ancestorsList, expandStep, lookupD]
    simp [computeRelationship, cousin2Graph, h1, h2, spousesD, childrenD, parentsD,
      lookupD, lookupN, closestCommon, ccGo, collateralResult, ordinal, Nat.repr]
    decide

/-- Witness for C3's universal clause on `cousinGraph` (members 3 and 4,
shared grandparent 0 at distances (2,2)). -/
theorem C3_cousin_degree_removal_witness :
    computeRelationship 3 4 cousinGraph
      = (ordinal (min 2 2 - 1) ++ " cousin" ++ removalSuffix (max 2 2 - min 2 2),
         [3, 0, 4]) := by
  have h1 : ancestorsList 3 cousinGraph.parents = [(1, 1), (0, 2)] := by
    repeat
      first
      | rfl
      | rw [bfsLoop]
      | simp [ancestorsList, expandStep, lookupD, cousinGraph]
  have h2 : ancestorsList 4 cousinGraph.parents = [(2, 1), (0, 2)] := by
    repeat
      first
      | rfl
      | rw [bfsLoop]
      | simp [ancestorsList, expandStep, lookupD, cousinGraph]
  exact C3_cousin_degree_removal.1 cousinGraph 3 4 0 2 2 (by decide) (by decide)
    (by decide) (by decide)
    (by rw [h1]; decide) (by rw [h2]; decide)
    (by rw [h1, h2]; decide) (by decide) (by decide)

theorem ne_hs_append (A B : String) (hg : B.data.getLast? ≠ some 'g')
    (hne : B.data ≠ []) : A ++ B ≠ "half-sibling" := by
  intro he
  have hd := congrArg String.data he
  rw [String.data_append] at hd
  have hlast : (A.data ++ B.data).getLast? = B.data.getLast? := by
    rw [List.getLast?_append]
    cases hB : B.data.getLast? with
    | none => exact absurd (List.getLast?_eq_none_iff.1 hB) hne
    | some ch => rfl
  rw [hd] at hlast
  have hgl : ("half-sibling" : String).data.getLast? = some 'g' := by decide
  rw [hgl] at hlast
  exact hg hlast.symm

theorem pair_fst_ne_hs {L : String} {P : List Nat} (h : L ≠ "half-sibling") :
    ((L, P) : String × List Nat).1 ≠ "half-sibling" := h

theorem collateralResult_ne_hs {a b cca df dt : Nat} {g : Graph}
    {r : String × List Nat} (h : collateralResult a b g cca df dt = some r) :
    r.1 ≠ "half-sibling" := by
  unfold collateralResult at h
  simp only [] at h
  split at h
  · split at h <;> (cases h; exact pair_fst_ne_hs (by decide))
  · split at h
    · split at h
      · cases h; exact pair_fst_ne_hs (by decide)
      · cases h; exact pair_fst_ne_hs (ne_hs_append _ _ (by decide) (by decide))
    · split at h
      · split at h
        · cases h; exact pair_fst_ne_hs (by decide)
        · cases h; exact pair_fst_ne_hs (ne_hs_append _ _ (by decide) (by decide))
      · split at h
        · split at h
          · cases h; exact pair_fst_ne_hs (by decide)
          · cases h; exact pair_fst_ne_hs (ne_hs_append _ _ (by decide) (by decide))
        · split at h
          · split at h
            · cases h; exact pair_fst_ne_hs (by decide)
            · cases h; exact pair_fst_ne_hs (ne_hs_append _ _ (by decide) (by decide))
          · split at h
            · split at h
              · cases h
                exact pair_fst_ne_hs (ne_hs_append _ _ (by decide) (by decide))
              · split at h
                · cases h
                  exact pair_fst_ne_hs (ne_hs_append _ _ (by decide) (by decide))
                · split at h
                  · cases h
                    exact pair_fst_ne_hs (ne_hs_append _ _ (by decide) (by decide))
                  · cases h
                    exact pair_fst_ne_hs (ne_hs_append _ _ (by decide) (by decide))
            · exact Option.noConfusion h

theorem findSome?_ne_hs {α : Type} {f : α → Option (String × List Nat)}
    {l : List α} {r : String × List Nat} (h : l.findSome? f = some r)
    (hf : ∀ x r', f x = some r' → r'.1 ≠ "half-sibling") :
    r.1 ≠ "half-sibling" := by
  obtain ⟨x, _, hx⟩ := findSome?_eq_some_ex h
  exact hf x r hx

theorem inlineSpouse_ne_hs {a b s : Nat} {g : Graph} {r : String × List Nat}
    (h : inlineSpouse a b g s = some r) : r.1 ≠ "half-sibling" := by
  unfold inlineSpouse at h
  split at h
  · cases h; exact pair_fst_ne_hs (by decide)
  · split at h
    · split at h
      · cases h; exact pair_fst_ne_hs (by decide)
      · cases h; exact pair_fst_ne_hs (by decide)
    · simp only [] at h
      refine findSome?_ne_hs h ?_
      intro x r' hx
      split at hx
      · exact Option.noConfusion hx
      · split at hx
        · cases hx; exact pair_fst_ne_hs (by decide)
        · exact Option.noConfusion hx

theorem culturalViaParent_ne_hs {a b p : Nat} {g : Graph} {r : String × List Nat}
    (h : culturalViaParent a b g p = some r) : r.1 ≠ "half-sibling" := by
  unfold culturalViaParent at h
  split at h
  · exact Option.noConfusion h
  · simp only [] at h
    split at h
    · cases h; exact pair_fst_ne_hs (by decide)
    · split at h
      · cases h; exact pair_fst_ne_hs (by decide)
      · split at h
        · cases h; exact pair_fst_ne_hs (by decide)
        · split at h
          · split at h
            · cases h; exact pair_fst_ne_hs (ne_hs_append _ _ (by decide) (by decide))
            · exact Option.noConfusion h
          · split at h
            · cases h; exact pair_fst_ne_hs (by decide)
            · exact Option.noConfusion h

theorem culturalViaAncestor_ne_hs {a b x dist : Nat} {g : Graph}
    {r : String × List Nat} (h : culturalViaAncestor a b g x dist = some r) :
    r.1 ≠ "half-sibling" := by
  unfold culturalViaAncestor at h
  split at h
  · split at h
    · exact Option.noConfusion h
    · simp only [] at h
      split at h
      · cases h; exact pair_fst_ne_hs (by decide)
      · split at h
        · cases h; exact pair_fst_ne_hs (ne_hs_append _ _ (by decide) (by decide))
        · split at h
          · cases h; exact pair_fst_ne_hs (by decide)
          · split at h
            · split at h
              · cases h
                exact pair_fst_ne_hs (ne_hs_append _ _ (by decide) (by decide))
              · exact Option.noConfusion h
            · exact Option.noConfusion h
  · exact Option.noConfusion h

theorem culturalViaReverse_ne_hs {a b x dist : Nat} {g : Graph}
    {r : String × List Nat} (h : culturalViaReverse a b g x dist = some r) :
    r.1 ≠ "half-sibling" := by
  unfold culturalViaReverse at h
  split at h
  · exact Option.noConfusion h
  · simp only [] at h
    split at h
    · cases h; exact pair_fst_ne_hs (by decide)
    · split at h
      · cases h; exact pair_fst_ne_hs (by decide)
      · split at h
        · split at h
          · cases h; exact pair_fst_ne_hs (ne_hs_append _ _ (by decide) (by decide))
          · exact Option.noConfusion h
        · split at h
          · cases h; exact pair_fst_ne_hs (ne_hs_append _ _ (by decide) (by decide))
          · exact Option.noConfusion h

theorem checkCultural_ne_hs {a b : Nat} {g : Graph} {r : String × List Nat}
    (h : checkCultural a b g = some r) : r.1 ≠ "half-sibling" := by
  unfold checkCultural at h
  split at h
  · cases h
    rename_i heq
    exact findSome?_ne_hs heq (fun x r' hx => culturalViaParent_ne_hs hx)
  · split at h
    · cases h
      rename_i heq
      exact findSome?_ne_hs heq (fun x r' hx => culturalViaAncestor_ne_hs hx)
    · split at h
      · cases h
        rename_i heq
        exact findSome?_ne_hs heq (fun x r' hx => culturalViaReverse_ne_hs hx)
      · split at h
        · exact Option.noConfusion h
        · split at h
          · refine findSome?_ne_hs h ?_
            intro x r' hx
            split at hx
            · exact Option.noConfusion hx
            · split at hx
              · cases hx; exact pair_fst_ne_hs (by decide)
              · exact Option.noConfusion hx
          · exact Option.noConfusion h

theorem inLawSpouseLabel_ne_hs {a b s : Nat} {g : Graph} {relType rl : String}
    {r : String × List Nat} (h : inLawSpouseLabel a b s g relType rl = some r) :
    r.1 ≠ "half-sibling" := by
  unfold inLawSpouseLabel at h
  by_cases hc : (rl == "parent") = true
  · rw [if_pos hc] at h
    cases h
    exact pair_fst_ne_hs (by decide)
  · rw [if_neg hc] at h
    clear hc
    by_cases hc : (rl == "child") = true
    · rw [if_pos hc] at h
      by_cases hc2 : (!(childrenD g a).contains b) = true
      · rw [if_pos hc2] at h
        cases h
        exact pair_fst_ne_hs (by decide)
      · rw [if_neg hc2] at h
        exact Option.noConfusion h
    · rw [if_neg hc] at h
      clear hc
      by_cases hc : (rl == "sibling") = true
      · rw [if_pos hc] at h
        cases h
        exact pair_fst_ne_hs (by decide)
      · rw [if_neg hc] at h
        clear hc
        by_cases hc : (rl == "grandparent") = true
        · rw [if_pos hc] at h
          cases h
          exact pair_fst_ne_hs (by decide)
        · rw [if_neg hc] at h
          clear hc
          by_cases hc : (rl == "grandchild") = true
          · rw [if_pos hc] at h
            cases h
            exact pair_fst_ne_hs (by decide)
          · rw [if_neg hc] at h
            clear hc
            by_cases hc : (containsSub rl "great-" && containsSub rl "grandparent") = true
            · rw [if_pos hc] at h
              cases h
              exact pair_fst_ne_hs (ne_hs_append _ _ (by decide) (by decide))
            · rw [if_neg hc] at h
              clear hc
              by_cases hc : (containsSub rl "great-" && containsSub rl "grandchild") = true
              · rw [if_pos hc] at h
                cases h
                exact pair_fst_ne_hs (ne_hs_append _ _ (by decide) (by decide))
              · rw [if_neg hc] at h
                clear hc
                by_cases hc : (rl == "aunt/uncle") = true
                · rw [if_pos hc] at h
                  cases h
                  exact pair_fst_ne_hs (by decide)
                · rw [if_neg hc] at h
                  clear hc
                  by_cases hc : (rl == "niece/nephew") = true
                  · rw [if_pos hc] at h
                    cases h
                    exact pair_fst_ne_hs (by decide)
                  · rw [if_neg hc] at h
                    clear hc
                    by_cases hc : (containsSub rl "great-" && containsSub rl "aunt/uncle") = true
                    · rw [if_pos hc] at h
                      cases h
                      exact pair_fst_ne_hs (ne_hs_append _ _ (by decide) (by decide))
                    · rw [if_neg hc] at h
                      clear hc
                      by_cases hc : (containsSub rl "great-" && containsSub rl "niece/nephew") = true
                      · rw [if_pos hc] at h
                        cases h
                        exact pair_fst_ne_hs (ne_hs_append _ _ (by decide) (by decide))
                      · rw [if_neg hc] at h
                        clear hc
                        by_cases hc : (containsSub rl "cousin") = true
                        · rw [if_pos hc] at h
                          cases h
                          exact pair_fst_ne_hs (ne_hs_append _ _ (by decide) (by decide))
                        · rw [if_neg hc] at h
                          clear hc
                          exact Option.noConfusion h

theorem inLawViaSpouse_ne_hs {a b s : Nat} {g : Graph} {r : String × List Nat}
    (h : inLawViaSpouse a b g s = some r) : r.1 ≠ "half-sibling" := by
  unfold inLawViaSpouse at h
  split at h
  · exact Option.noConfusion h
  · exact inLawSpouseLabel_ne_hs h

theorem inLawViaRelative_ne_hs {a b rel : Nat} {g : Graph} {r : String × List Nat}
    (h : inLawViaRelative a b g rel = some r) : r.1 ≠ "half-sibling" := by
  unfold inLawViaRelative at h
  split at h
  · exact Option.noConfusion h
  · split at h
    · split at h
      · exact Option.noConfusion h
      · simp only [] at h
        split at h
        · cases h; exact pair_fst_ne_hs (by decide)
        · split at h
          · cases h; exact pair_fst_ne_hs (by decide)
          · split at h
            · cases h; exact pair_fst_ne_hs (by decide)
            · split at h
              · cases h; exact pair_fst_ne_hs (by decide)
              · split at h
                · cases h; exact pair_fst_ne_hs (by decide)
                · split at h
                  · cases h; exact pair_fst_ne_hs (by decide)
                  · split at h
                    · cases h; exact pair_fst_ne_hs (by decide)
                    · split at h
                      · cases h
                        exact pair_fst_ne_hs
                          (ne_hs_append _ _ (by decide) (by decide))
                      · exact Option.noConfusion h
    · exact Option.noConfusion h

theorem checkInLaw_ne_hs {a b : Nat} {g : Graph} {r : String × List Nat}
    (h : checkInLaw a b g = some r) : r.1 ≠ "half-sibling" := by
  unfold checkInLaw at h
  split at h
  · cases h
    rename_i heq
    refine findSome?_ne_hs heq ?_
    intro x r' hx
    split at hx
    · cases hx; exact pair_fst_ne_hs (by decide)
    · exact Option.noConfusion hx
  · split at h
    · cases h
      rename_i heq
      refine findSome?_ne_hs heq ?_
      intro x r' hx
      split at hx
      · cases hx; exact pair_fst_ne_hs (by decide)
      · exact Option.noConfusion hx
    · split at h
      · cases h
        rename_i heq
        exact findSome?_ne_hs heq (fun x r' hx => inLawViaSpouse_ne_hs hx)
      · split at h
        · cases h
          rename_i heq
          refine findSome?_ne_hs heq ?_
          intro x r' hx
          split at hx
          · cases hx; exact pair_fst_ne_hs (by decide)
          · exact Option.noConfusion hx
        · exact findSome?_ne_hs h (fun x r' hx => inLawViaRelative_ne_hs hx)

theorem afterCollateral_ne_hs (a b : Nat) (g : Graph) :
    (afterCollateral a b g).1 ≠ "half-sibling" := by
  unfold afterCollateral
  split
  · rename_i heq
    exact findSome?_ne_hs heq (fun x r' hx => inlineSpouse_ne_hs hx)
  · split
    · rename_i heq
      refine findSome?_ne_hs heq ?_
      intro x r' hx
      split at hx
      · cases hx; exact pair_fst_ne_hs (by decide)
      · exact Option.noConfusion hx
    · split
      · rename_i heq
        exact checkCultural_ne_hs heq
      · split
        · rename_i heq
          exact checkInLaw_ne_hs heq
        · exact pair_fst_ne_hs (by decide)

theorem computeRelationship_ne_hs (a b : Nat) (g : Graph) :
    (computeRelationship a b g).1 ≠ "half-sibling" := by
  unfold computeRelationship
  by_cases h1 : a = b
  · rw [if_pos h1]; exact pair_fst_ne_hs (by decide)
  · rw [if_neg h1]
    by_cases h2 : ((spousesD g a).contains b) = true
    · rw [if_pos h2]; exact pair_fst_ne_hs (by decide)
    · rw [if_neg h2]
      by_cases h3 : ((childrenD g a).contains b) = true
      · rw [if_pos h3]; exact pair_fst_ne_hs (by decide)
      · rw [if_neg h3]
        by_cases h4 : ((parentsD g a).contains b) = true
        · rw [if_pos h4]; exact pair_fst_ne_hs (by decide)
        · rw [if_neg h4]
          simp only []
          cases hF : lookupN (ancestorsList a g.parents) b with
          | some d =>
            simp only []
            by_cases hd1 : d = 1
            · rw [if_pos hd1]; exact pair_fst_ne_hs (by decide)
            · rw [if_neg hd1]
              by_cases hd2 : d = 2
              · rw [if_pos hd2]; exact pair_fst_ne_hs (by decide)
              · rw [if_neg hd2]
                exact pair_fst_ne_hs (ne_hs_append _ _ (by decide) (by decide))
          | none =>
            simp only []
            cases hT : lookupN (ancestorsList b g.parents) a with
            | some d =>
              simp only []
              by_cases hd1 : d = 1
              · rw [if_pos hd1]; exact pair_fst_ne_hs (by decide)
              · rw [if_neg hd1]
                by_cases hd2 : d = 2
                · rw [if_pos hd2]; exact pair_fst_ne_hs (by decide)
                · rw [if_neg hd2]
                  exact pair_fst_ne_hs (ne_hs_append _ _ (by decide) (by decide))
            | none =>
              simp only []
              cases hC : closestCommon (ancestorsList a g.parents)
                  (ancestorsList b g.parents) with
              | some t =>
                rcases t with ⟨cca, df, dt⟩
                simp only []
                cases hCol : collateralResult a b g cca df dt with
                | some r =>
                  exact collateralResult_ne_hs hCol
                | none =>
                  exact afterCollateral_ne_hs a b g
              | none =>
                exact afterCollateral_ne_hs a b g

theorem anc_val_pos {s v d : Nat} {p : List (Nat × List Nat)}
    (h : (v, d) ∈ ancestorsList s p) : 1 ≤ d := by
  obtain ⟨hne, hw, _⟩ := mem_ancestors_iff.1 h
  cases d with
  | zero => exact absurd (walkUp_zero.1 hw) hne
  | succ n => omega

theorem collateralResult_sibling (a b : Nat) (g : Graph) (cca : Nat) :
    collateralResult a b g cca 1 1 = some ("sibling", [a, cca, b]) := by
  unfold collateralResult
  rw [if_pos ⟨rfl, rfl⟩]
  by_cases hc : (((parentsD g a).all (fun x => (parentsD g b).contains x) &&
      (parentsD g b).all (fun x => (parentsD g a).contains x)) &&
      !(parentsD g a).isEmpty) = true
  · rw [if_pos hc]
  · rw [if_neg hc]

/-- Members 1 and 2 share parent 0 and are also joined by a spouse edge. -/
def sibSpouseGraph : Graph :=
  { members := [(0, ⟨none⟩), (1, ⟨none⟩), (2, ⟨none⟩)]
    spouses := [(0, []), (1, [2]), (2, [1])]
    parents := [(0, []), (1, [0]), (2, [0])]
    children := [(0, [1, 2]), (1, []), (2, [])] }

/-- Counterexample to C10 as stated: members 1 and 2 share parent 0 (both at
distance 1 from their closest common ancestor), yet the classifier returns
"spouse", not "sibling", because the direct spouse edge is decided first. -/
theorem C10_counterexample_spouse_pair :
    (0 ∈ parentsD sibSpouseGraph 1 ∧ 0 ∈ parentsD sibSpouseGraph 2) ∧
    computeRelationship 1 2 sibSpouseGraph = ("spouse", [1, 2]) ∧
    ("spouse" : String) ≠ "sibling" := by
  refine ⟨⟨by decide, by decide⟩, by decide, by decide⟩

/-- C10 as amended: for distinct members with no direct spouse/parent/child
edge between them and neither an ancestor of the other, sharing at least one
parent yields the label "sibling" (both return sites of the shared-parents
test produce it, identical or merely overlapping parent sets alike); and no
input whatsoever makes `_compute_relationship` return "half-sibling". -/
theorem C10_sibling_never_half :
    (∀ (g : Graph) (a b : Nat), a ≠ b →
      (spousesD g a).contains b = false →
      (childrenD g a).contains b = false →
      (parentsD g a).contains b = false →
      b ∉ keysOf (ancestorsList a g.parents) →
      a ∉ keysOf (ancestorsList b g.parents) →
      (∃ p, p ∈ parentsD g a ∧ p ∈ parentsD g b) →
      (computeRelationship a b g).1 = "sibling") ∧
    (∀ (g : Graph) (a b : Nat), (computeRelationship a b g).1 ≠ "half-sibling") := by
  constructor
  · intro g a b hne hsp hch hpa hkF hkT ⟨p, hpa1, hpa2⟩
    have hpb : p ≠ b := by
      rintro rfl
      exact hkF (keys_ancestors_iff.2 ⟨Ne.symm hne, 1,
        walkUp_step (walkUp_self _ _) hpa1⟩)
    have hpA : p ≠ a := by
      rintro rfl
      exact hkT (keys_ancestors_iff.2 ⟨hne, 1,
        walkUp_step (walkUp_self _ _) hpa2⟩)
    have hmemF : (p, 1) ∈ ancestorsList a g.parents := by
      refine mem_ancestors_iff.2 ⟨hpA, walkUp_step (walkUp_self _ _) hpa1, ?_⟩
      intro k hk
      interval_cases k
      unfold walkUp
      exact beq_false_of_ne hpA
    have hmemT : (p, 1) ∈ ancestorsList b g.parents := by
      refine mem_ancestors_iff.2 ⟨hpb, walkUp_step (walkUp_self _ _) hpa2, ?_⟩
      intro k hk
      interval_cases k
      unfold walkUp
      exact beq_false_of_ne hpb
    have hlkp : lookupN (ancestorsList b g.parents) p = some 1 :=
      mem_lookupN_of_nodup (ancestors_keys_nodup b g.parents) hmemT
    cases hC : closestCommon (ancestorsList a g.parents)
        (ancestorsList b g.parents) with
    | none =>
      exfalso
      have := ((ccGo_eq_none_iff _ _ none).1 hC).2 (p, 1) hmemF
      rw [hlkp] at this
      exact Option.noConfusion this
    | some t =>
      rcases t with ⟨cca, df, dt⟩
      obtain ⟨hsel, hmin, _⟩ := ccGo_some_spec _ _ none cca df dt hC
      rcases hsel with hsel | ⟨hmem, hlk⟩
      · exact Option.noConfusion hsel
      · have hsum : df + dt ≤ 2 := hmin p 1 1 hmemF hlkp
        have hdf : 1 ≤ df := anc_val_pos hmem
        have hdt : 1 ≤ dt := anc_val_pos (lookupN_eq_some_mem hlk)
        have hdf1 : df = 1 := by omega
        have hdt1 : dt = 1 := by omega
        subst hdf1
        subst hdt1
        have hlkF : lookupN (ancestorsList a g.parents) b = none :=
          lookupN_eq_none_iff_keys.2 hkF
        have hlkT : lookupN (ancestorsList b g.parents) a = none :=
          lookupN_eq_none_iff_keys.2 hkT
        simp only [computeRelationship, if_neg hne, hsp, hch, hpa,
          Bool.false_eq_true, if_false, hlkF, hlkT, hC,
          collateralResult_sibling a b g cca]
  · intro g a b
    exact computeRelationship_ne_hs a b g

/-- Plain siblings: 1 and 2 under parent 0, no spouse edges. -/
def plainSibGraph : Graph :=
  { members := [(0, ⟨none⟩), (1, ⟨none⟩), (2, ⟨none⟩)]
    spouses := [(0, []), (1, []), (2, [])]
    parents := [(0, []), (1, [0]), (2, [0])]
    children := [(0, [1, 2]), (1, []), (2, [])] }

/-- Witness for C10 (amended): plain siblings 1 and 2 under parent 0. -/
theorem C10_sibling_never_half_witness :
    (computeRelationship 1 2 plainSibGraph).1 = "sibling" := by
  have h1 : ancestorsList 1 plainSibGraph.parents = [(0, 1)] := by
    repeat
      first
      | rfl
      | rw [bfsLoop]
      | simp [ancestorsList, expandStep, lookupD, plainSibGraph]
  have h2 : ancestorsList 2 plainSibGraph.parents = [(0, 1)] := by
    repeat
      first
      | rfl
      | rw [bfsLoop]
      | simp [ancestorsList, expandStep, lookupD, plainSibGraph]
  exact C10_sibling_never_half.1 plainSibGraph 1 2 (by decide) (by decide) (by decide)
    (by decide)
    (by rw [h1]; decide)
    (by rw [h2]; decide)
    ⟨0, by decide, by decide⟩

/-- The base mapping table of the gender renderer (the ten tokens compared
against the lowered label). -/
def baseTokens : List String :=
  ["parent", "child", "sibling", "half-sibling", "grandparent", "grandchild",
   "aunt/uncle", "niece/nephew", "cousin-aunt/uncle", "cousin-niece/nephew"]

/-- The lowered label matches the "great-"-prefixed pattern rule: it contains
"great-" and ends with one of the four regenderable cores. -/
def matchesGreatRule (rel : String) : Bool :=
  containsSub rel "great-" &&
    (endsWithS rel "grandparent" || endsWithS rel "grandchild" ||
     endsWithS rel "aunt/uncle" || endsWithS rel "niece/nephew")

/-- The lowered label matches the "-in-law" pattern rule (no "great-", which
shadows it in the elif chain). -/
def matchesInLawRule (rel : String) : Bool :=
  !containsSub rel "great-" && containsSub rel "-in-law" &&
    (containsSub rel "parent" || containsSub rel "child" ||
     containsSub rel "sibling" || containsSub rel "grandparent" ||
     containsSub rel "aunt" || containsSub rel "uncle")

/-- The lowered label matches the "step-" pattern rule (shadowed by both
"great-" and "-in-law"). -/
def matchesStepRule (rel : String) : Bool :=
  !containsSub rel "great-" && !containsSub rel "-in-law" &&
    containsSub rel "step-" &&
    (containsSub rel "parent" || containsSub rel "child" ||
     containsSub rel "sibling")

/-- The lowered label matches neither the base table nor any pattern rule. -/
def unmappedToken (rel : String) : Bool :=
  !baseTokens.contains rel && !matchesGreatRule rel && !matchesInLawRule rel &&
    !matchesStepRule rel


theorem genderLabel_unmapped (base gender rel : String)
    (h : unmappedToken rel = true) : genderLabel base gender rel = base := by
  unfold unmappedToken at h
  simp only [Bool.and_eq_true, Bool.not_eq_true'] at h
  obtain ⟨⟨⟨hbase, hgreat⟩, hinlaw⟩, hstep⟩ := h
  have e0 : (rel == "parent") = false := by
    cases hq : rel == "parent"
    · rfl
    · exfalso
      have hr : rel = "parent" := by simpa using hq
      subst hr
      simp [baseTokens] at hbase
  have e1 : (rel == "child") = false := by
    cases hq : rel == "child"
    · rfl
    · exfalso
      have hr : rel = "child" := by simpa using hq
      subst hr
      simp [baseTokens] at hbase
  have e2 : (rel == "sibling") = false := by
    cases hq : rel == "sibling"
    · rfl
    · exfalso
      have hr : rel = "sibling" := by simpa using hq
      subst hr
      simp [baseTokens] at hbase
  have e3 : (rel == "half-sibling") = false := by
    cases hq : rel == "half-sibling"
    · rfl
    · exfalso
      have hr : rel = "half-sibling" := by simpa using hq
      subst hr
      simp [baseTokens] at hbase
  have e4 : (rel == "grandparent") = false := by
    cases hq : rel == "grandparent"
    · rfl
    · exfalso
      have hr : rel = "grandparent" := by simpa using hq
      subst hr
      simp [baseTokens] at hbase
  have e5 : (rel == "grandchild") = false := by
    cases hq : rel == "grandchild"
    · rfl
    · exfalso
      have hr : rel = "grandchild" := by simpa using hq
      subst hr
      simp [baseTokens] at hbase
  have e6 : (rel == "aunt/uncle") = false := by
    cases hq : rel == "aunt/uncle"
    · rfl
    · exfalso
      have hr : rel = "aunt/uncle" := by simpa using hq
      subst hr
      simp [baseTokens] at hbase
  have e7 : (rel == "niece/nephew") = false := by
    cases hq : rel == "niece/nephew"
    · rfl
    · exfalso
      have hr : rel = "niece/nephew" := by simpa using hq
      subst hr
      simp [baseTokens] at hbase
  have e8 : (rel == "cousin-aunt/uncle") = false := by
    cases hq : rel == "cousin-aunt/uncle"
    · rfl
    · exfalso
      have hr : rel = "cousin-aunt/uncle" := by simpa using hq
      subst hr
      simp [baseTokens] at hbase
  have e9 : (rel == "cousin-niece/nephew") = false := by
    cases hq : rel == "cousin-niece/nephew"
    · rfl
    · exfalso
      have hr : rel = "cousin-niece/nephew" := by simpa using hq
      subst hr
      simp [baseTokens] at hbase
  unfold genderLabel
  simp only [e0, e1, e2, e3, e4, e5, e6, e7, e8, e9, Bool.false_eq_true, if_false]
  by_cases hg : containsSub rel "great-" = true
  · have hends := hgreat
    unfold matchesGreatRule at hends
    simp only [hg, Bool.true_and] at hends
    simp only [Bool.or_eq_false_iff] at hends
    obtain ⟨⟨⟨he1, he2⟩, he3⟩, he4⟩ := hends
    simp only [hg, if_true, he1, he2, he3, he4, Bool.or_false, Bool.false_or,
      Bool.false_eq_true, if_false]
  · have hg' : containsSub rel "great-" = false := by
      cases hq : containsSub rel "great-"
      · rfl
      · exact absurd hq hg
    simp only [hg', Bool.false_eq_true, if_false]
    by_cases hil : containsSub rel "-in-law" = true
    · have hcores := hinlaw
      unfold matchesInLawRule at hcores
      simp only [hg', hil, Bool.not_false, Bool.true_and] at hcores
      simp only [Bool.or_eq_false_iff] at hcores
      obtain ⟨⟨⟨⟨⟨hc1, hc2⟩, hc3⟩, hc4⟩, hc5⟩, hc6⟩ := hcores
      simp only [hil, if_true, hc1, hc2, hc3, hc4, hc5, hc6, Bool.or_false,
        Bool.false_or, Bool.false_eq_true, if_false]
    · have hil' : containsSub rel "-in-law" = false := by
        cases hq : containsSub rel "-in-law"
        · rfl
        · exact absurd hq hil
      simp only [hil', Bool.false_eq_true, if_false]
      by_cases hst : containsSub rel "step-" = true
      · have hcores := hstep
        unfold matchesStepRule at hcores
        simp only [hg', hil', hst, Bool.not_false, Bool.true_and] at hcores
        simp only [Bool.or_eq_false_iff] at hcores
        obtain ⟨⟨hs1, hs2⟩, hs3⟩ := hcores
        simp only [hst, if_true, hs1, hs2, hs3, Bool.or_false, Bool.false_or,
          Bool.false_eq_true, if_false]
      · have hst' : containsSub rel "step-" = false := by
          cases hq : containsSub rel "step-"
          · rfl
          · exact absurd hq hst
        simp only [hst', Bool.false_eq_true, if_false]

/-- C9: the gender renderer returns the label unchanged when the member's
gender is missing, and also when the lowered label matches neither the base
mapping table nor the "great-"-prefixed, "-in-law"-suffixed or
"step-"-prefixed pattern rules. -/
theorem C9_renderer_identity :
    (∀ (base : String) (m : Member), m.gender = none →
      genderSpecific base m = base) ∧
    (∀ (base : String) (m : Member), unmappedToken (pyLower base) = true →
      genderSpecific base m = base) := by
  constructor
  · intro base m h
    unfold genderSpecific
    rw [h]
  · intro base m h
    unfold genderSpecific
    cases m.gender with
    | none => rfl
    | some gs =>
      simp only []
      by_cases hq : (gs == "") = true
      · rw [if_pos hq]
      · rw [if_neg hq]
        exact genderLabel_unmapped base (pyLower gs) (pyLower base) h

/-- Witness for C9: a missing gender and an unmapped token both render
unchanged. -/
theorem C9_renderer_identity_witness :
    genderSpecific "parent" ⟨none⟩ = "parent" ∧
    genderSpecific "benefactor" ⟨some "male"⟩ = "benefactor" :=
  ⟨C9_renderer_identity.1 "parent" ⟨none⟩ rfl,
   C9_renderer_identity.2 "benefactor" ⟨some "male"⟩ (by decide)⟩

theorem lookupD_eq_default {α : Type} {l : List (Nat × α)} {k : Nat} {d : α}
    (h : k ∉ keysOf l) : lookupD l k d = d := by
  unfold lookupD
  cases hf : l.find? (fun e => e.1 == k) with
  | none => rfl
  | some e =>
    exfalso
    have he : e ∈ l := List.mem_of_find?_eq_some hf
    have hk : e.1 = k := by simpa using List.find?_some hf
    exact h (hk ▸ List.mem_map_of_mem _ he)

theorem not_mem_lookupD {l : List (Nat × List Nat)} {k x : Nat}
    (h : ∀ e ∈ l, x ∉ e.2) : x ∉ lookupD l k [] := by
  unfold lookupD
  cases hf : l.find? (fun e => e.1 == k) with
  | none => simp
  | some e => exact h e (List.mem_of_find?_eq_some hf)

theorem ancestorsList_eq_nil {s : Nat} {p : List (Nat × List Nat)}
    (h : lookupD p s [] = []) : ancestorsList s p = [] := by
  unfold ancestorsList
  rw [bfsLoop]
  rw [show expandStep 0 (lookupD p s []) {s} [] [] = ({s}, [], []) by
    rw [h]; rfl]
  rw [bfsLoop]

/-- `x` occurs nowhere in the graph: not a key of any dict and not in any
adjacency value list. -/
def absentFrom (g : Graph) (x : Nat) : Prop :=
  x ∉ keysOf g.members ∧ x ∉ keysOf g.spouses ∧ x ∉ keysOf g.parents ∧
  x ∉ keysOf g.children ∧
  (∀ e ∈ g.spouses, x ∉ e.2) ∧ (∀ e ∈ g.parents, x ∉ e.2) ∧
  (∀ e ∈ g.children, x ∉ e.2)

instance (g : Graph) (x : Nat) : Decidable (absentFrom g x) := by
  unfold absentFrom
  infer_instance

theorem basicBlood_of_absent {g : Graph} {a b : Nat} (hne : a ≠ b)
    (hchA : childrenD g a = []) (hpaA : parentsD g a = [])
    (hancA : ancestorsList a g.parents = [])
    (hancB : ancestorsList b g.parents = []) :
    basicBlood a b g = none := by
  unfold basicBlood
  rw [if_neg hne, if_neg (by rw [hchA]; simp), if_neg (by rw [hpaA]; simp)]
  simp only [hancA, hancB]
  rfl

theorem checkCultural_of_absent {g : Graph} {a b : Nat} (hne : a ≠ b)
    (hchA : childrenD g a = []) (hpaA : parentsD g a = [])
    (hancA : ancestorsList a g.parents = [])
    (hancB : ancestorsList b g.parents = []) :
    checkCultural a b g = none := by
  unfold checkCultural
  rw [hpaA, hancA, hancB,
    basicBlood_of_absent hne hchA hpaA hancA hancB]
  rfl

theorem checkInLaw_of_absent {g : Graph} {a b : Nat} (hne : a ≠ b)
    (hmemA : a ∉ keysOf g.members) (hmemB : b ∉ keysOf g.members)
    (hspA : spousesD g a = []) (hchA : childrenD g a = [])
    (hpaA : parentsD g a = []) (hpaB : parentsD g b = [])
    (hspVals : ∀ e ∈ g.spouses, b ∉ e.2) :
    checkInLaw a b g = none := by
  unfold checkInLaw
  rw [hpaA, hpaB, hspA, hchA]
  simp only [List.findSome?]
  rw [findSome?_eq_none_iff.2 ?_]
  · intro x hx
    unfold inLawViaRelative
    have hxa : (x == a) = false := by
      refine beq_false_of_ne ?_
      intro hxe
      exact hmemA (hxe ▸ hx)
    have hxb : (x == b) = false := by
      refine beq_false_of_ne ?_
      intro hxe
      exact hmemB (hxe ▸ hx)
    rw [hxa, hxb]
    simp only [Bool.or_false, Bool.false_eq_true, if_false]
    have : b ∉ spousesD g x := not_mem_lookupD hspVals
    rw [if_neg (by simpa using this)]

/-- Single-member graph for the absent-id counterexample. -/
def tinyGraph : Graph :=
  { members := [(1, ⟨none⟩)]
    spouses := [(1, [])]
    parents := [(1, [])]
    children := [(1, [])] }

/-- Counterexample to C2 as stated: ids 5 and 6 are absent from the member
map of `tinyGraph`, yet `_compute_relationship` raises nothing (it is a total
function here, as every dict access in the source uses `.get(x, [])`) and
returns the label "unknown". -/
theorem C2_counterexample_absent_ids :
    5 ∉ keysOf tinyGraph.members ∧ 6 ∉ keysOf tinyGraph.members ∧
    computeRelationship 5 6 tinyGraph = ("unknown", [5, 6]) := by
  refine ⟨by decide, by decide, ?_⟩
  have h5 : ancestorsList 5 tinyGraph.parents = [] :=
    ancestorsList_eq_nil (by decide)
  have h6 : ancestorsList 6 tinyGraph.parents = [] :=
    ancestorsList_eq_nil (by decide)
  have hcul : checkCultural 5 6 tinyGraph = none :=
    checkCultural_of_absent (by decide) (by decide) (by decide) h5 h6
  have hinl : checkInLaw 5 6 tinyGraph = none :=
    checkInLaw_of_absent (by decide) (by decide) (by decide) (by decide)
      (by decide) (by decide) (by decide) (by decide)
  unfold computeRelationship afterCollateral
  rw [if_neg (by decide), if_neg (by decide), if_neg (by decide),
    if_neg (by decide)]
  simp only [h5, h6, hcul, hinl]
  rfl

theorem pyLower_append (s t : String) :
    pyLower (s ++ t) = pyLower s ++ pyLower t := by
  unfold pyLower
  apply String.ext
  simp [String.data_append]

theorem pyLower_greats (k : Nat) : pyLower (greats k) = greats k := by
  induction k with
  | zero => rfl
  | succ n ih =>
    unfold greats
    rw [pyLower_append, ih]
    rfl

theorem greats_succ_data (k : Nat) (X : String) :
    (greats (k + 1) ++ X).data
      = 'g' :: 'r' :: 'e' :: 'a' :: 't' :: '-' :: (greats k ++ X).data := by
  rw [show greats (k + 1) = "great-" ++ greats k from rfl]
  rw [String.append_assoc, String.data_append]
  rw [show ("great-" : String).data = ['g', 'r', 'e', 'a', 't', '-'] from rfl]
  rfl

theorem greats_zero_append (X : String) : greats 0 ++ X = X := by
  apply String.ext
  rw [String.data_append]
  rfl

theorem greats_append_ne_sibling (k : Nat) (X : String) (h0 : X ≠ "sibling") :
    greats k ++ X ≠ "sibling" := by
  cases k with
  | zero =>
    rw [greats_zero_append]
    exact h0
  | succ n =>
    intro he
    have hd := congrArg String.data he
    rw [greats_succ_data] at hd
    rw [show ("sibling" : String).data = ['s', 'i', 'b', 'l', 'i', 'n', 'g']
      from rfl] at hd
    simp at hd

theorem mem_of_containsSub {hay pat : String} (hc : containsSub hay pat = true) :
    ∀ c ∈ pat.data, c ∈ hay.data := by
  unfold containsSub at hc
  obtain ⟨t, ht, hpre⟩ := List.any_eq_true.1 hc
  intro c hcp
  have hsub1 : c ∈ t := (List.isPrefixOf_iff_prefix.1 hpre).subset hcp
  exact ((List.mem_tails _ _).1 ht).subset hsub1

theorem o_not_in_greats (k : Nat) : 'o' ∉ (greats k).data := by
  induction k with
  | zero => simp [greats]
  | succ n ih =>
    unfold greats
    rw [String.data_append]
    intro hm
    rcases List.mem_append.1 hm with hm' | hm'
    · exact absurd hm' (by decide)
    · exact ih hm'

theorem containsSub_cousin_false {s : String} (h : 'o' ∉ s.data) :
    containsSub s "cousin" = false := by
  cases hq : containsSub s "cousin"
  · rfl
  · exact absurd (mem_of_containsSub hq 'o' (by decide)) h

theorem greats_append_not_cousin (k : Nat) (X : String) (hX : 'o' ∉ X.data) :
    containsSub (greats k ++ X) "cousin" = false := by
  apply containsSub_cousin_false
  rw [String.data_append]
  intro hm
  rcases List.mem_append.1 hm with hm' | hm'
  · exact o_not_in_greats k hm'
  · exact hX hm'

theorem pair_shape {L : String} {P : List Nat} (h1 : pyLower L ≠ "sibling")
    (h2 : containsSub (pyLower L) "cousin" = false) :
    pyLower ((L, P) : String × List Nat).1 ≠ "sibling" ∧
    containsSub (pyLower ((L, P) : String × List Nat).1) "cousin" = false :=
  ⟨h1, h2⟩

theorem basicBlood_label_shape {g : Graph} {x y : Nat}
    {r : String × List Nat}
    (hcc : closestCommon (ancestorsList x g.parents) (ancestorsList y g.parents)
      = none)
    (h : basicBlood x y g = some r) :
    pyLower r.1 ≠ "sibling" ∧ containsSub (pyLower r.1) "cousin" = false := by
  unfold basicBlood at h
  by_cases h1 : x = y
  · rw [if_pos h1] at h
    cases h
    exact pair_shape (by decide) (by decide)
  · rw [if_neg h1] at h
    by_cases h2 : ((childrenD g x).contains y) = true
    · rw [if_pos h2] at h
      cases h
      exact pair_shape (by decide) (by decide)
    · rw [if_neg h2] at h
      by_cases h3 : ((parentsD g x).contains y) = true
      · rw [if_pos h3] at h
        cases h
        exact pair_shape (by decide) (by decide)
      · rw [if_neg h3] at h
        simp only [] at h
        cases hF : lookupN (ancestorsList x g.parents) y with
        | some d =>
          rw [hF] at h
          simp only [] at h
          by_cases hd1 : d = 1
          · rw [if_pos hd1] at h
            cases h
            exact pair_shape (by decide) (by decide)
          · rw [if_neg hd1] at h
            by_cases hd2 : d = 2
            · rw [if_pos hd2] at h
              cases h
              exact pair_shape (by decide) (by decide)
            · rw [if_neg hd2] at h
              cases h
              refine pair_shape ?_ ?_
              · rw [pyLower_append, pyLower_greats,
                  show pyLower "grandparent" = "grandparent" from by decide]
                exact greats_append_ne_sibling _ _ (by decide)
              · rw [pyLower_append, pyLower_greats,
                  show pyLower "grandparent" = "grandparent" from by decide]
                exact greats_append_not_cousin _ _ (by decide)
        | none =>
          rw [hF] at h
          simp only [] at h
          cases hT : lookupN (ancestorsList y g.parents) x with
          | some d =>
            rw [hT] at h
            simp only [] at h
            by_cases hd1 : d = 1
            · rw [if_pos hd1] at h
              cases h
              exact pair_shape (by decide) (by decide)
            · rw [if_neg hd1] at h
              by_cases hd2 : d = 2
              · rw [if_pos hd2] at h
                cases h
                exact pair_shape (by decide) (by decide)
              · rw [if_neg hd2] at h
                cases h
                refine pair_shape ?_ ?_
                · rw [pyLower_append, pyLower_greats,
                    show pyLower "grandchild" = "grandchild" from by decide]
                  exact greats_append_ne_sibling _ _ (by decide)
                · rw [pyLower_append, pyLower_greats,
                    show pyLower "grandchild" = "grandchild" from by decide]
                  exact greats_append_not_cousin _ _ (by decide)
          | none =>
            rw [hT] at h
            simp only [] at h
            rw [hcc] at h
            exact Option.noConfusion h

theorem bool_ne_true {x : Bool} (h : x = false) : ¬ (x = true) := by
  rw [h]
  exact Bool.false_ne_true

theorem closestCommon_eq_none_iff {mf mt : List (Nat × Nat)} :
    closestCommon mf mt = none ↔ ∀ e ∈ mf, lookupN mt e.1 = none := by
  unfold closestCommon
  rw [ccGo_eq_none_iff mt mf none]
  simp

theorem key_of_lookupN_some {α : Type} {m : List (Nat × α)} {k : Nat} {v : α}
    (h : lookupN m k = some v) : k ∈ keysOf m :=
  lookupN_isSome_iff_keys.1 (by rw [h]; rfl)

theorem cc_none_of_step {g : Graph} {a b x : Nat}
    (hstep : ∀ y, y ∈ keysOf (ancestorsList x g.parents) →
        y = a ∨ y ∈ keysOf (ancestorsList a g.parents))
    (h6 : lookupN (ancestorsList b g.parents) a = none)
    (h7 : closestCommon (ancestorsList a g.parents)
        (ancestorsList b g.parents) = none) :
    closestCommon (ancestorsList x g.parents) (ancestorsList b g.parents) = none := by
  rw [closestCommon_eq_none_iff]
  intro e he
  cases hl : lookupN (ancestorsList b g.parents) e.1 with
  | none => rfl
  | some d =>
    exfalso
    have hkx : e.1 ∈ keysOf (ancestorsList x g.parents) := by
      unfold keysOf
      exact List.mem_map.2 ⟨e, he, rfl⟩
    rcases hstep e.1 hkx with hEa | hka
    · rw [hEa, h6] at hl
      exact Option.noConfusion hl
    · rw [closestCommon_eq_none_iff] at h7
      unfold keysOf at hka
      obtain ⟨e', he', hfst⟩ := List.mem_map.1 hka
      have hfst' : e'.1 = e.1 := hfst
      have hnone := h7 e' he'
      rw [hfst', hl] at hnone
      exact Option.noConfusion hnone

theorem cc_none_sym {g : Graph} {a b x : Nat}
    (hx : x ∈ keysOf (ancestorsList b g.parents))
    (h5 : lookupN (ancestorsList a g.parents) b = none)
    (h7 : closestCommon (ancestorsList a g.parents)
        (ancestorsList b g.parents) = none) :
    closestCommon (ancestorsList a g.parents) (ancestorsList x g.parents) = none := by
  rw [closestCommon_eq_none_iff]
  intro e he
  cases hl : lookupN (ancestorsList x g.parents) e.1 with
  | none => rfl
  | some d =>
    exfalso
    have hke : e.1 ∈ keysOf (ancestorsList x g.parents) := key_of_lookupN_some hl
    rcases reach_extend hx hke with hEb | hkb
    · cases e with
      | mk v dv =>
        simp only [] at hEb
        rw [hEb] at he
        have hmem := mem_lookupN_of_nodup (ancestors_keys_nodup a g.parents) he
        rw [h5] at hmem
        exact Option.noConfusion hmem
    · rw [closestCommon_eq_none_iff] at h7
      have hnone := h7 e he
      have hsome := lookupN_isSome_iff_keys.2 hkb
      rw [hnone] at hsome
      simp at hsome

theorem shape_beq_sibling {L : String} (hs : pyLower L ≠ "sibling") :
    (pyLower L == "sibling") = false :=
  beq_false_of_ne hs

theorem shape_beq_cousinlit {L : String}
    (hc : containsSub (pyLower L) "cousin" = false)
    (lit : String) (hlit : containsSub lit "cousin" = true) :
    (pyLower L == lit) = false := by
  cases hq : (pyLower L == lit)
  · rfl
  · exfalso
    rw [eq_of_beq hq] at hc
    rw [hc] at hlit
    exact Bool.noConfusion hlit

theorem culturalViaParent_none {a b pp : Nat} {g : Graph}
    (hcc : closestCommon (ancestorsList pp g.parents)
        (ancestorsList b g.parents) = none) :
    culturalViaParent a b g pp = none := by
  unfold culturalViaParent
  cases hB : basicBlood pp b g with
  | none => rfl
  | some r =>
    obtain ⟨hs, hc⟩ := basicBlood_label_shape hcc hB
    obtain ⟨L, P⟩ := r
    simp only [] at hs hc ⊢
    have h1 := shape_beq_sibling hs
    have h2 := shape_beq_cousinlit hc "1st cousin" (by decide)
    have h3 := shape_beq_cousinlit hc "2nd cousin" (by decide)
    simp [h1, h2, h3, hc]

theorem culturalViaAncestor_none {a b x dist : Nat} {g : Graph}
    (hcc : closestCommon (ancestorsList x g.parents)
        (ancestorsList b g.parents) = none) :
    culturalViaAncestor a b g x dist = none := by
  unfold culturalViaAncestor
  by_cases hd : 2 ≤ dist
  · rw [if_pos hd]
    cases hB : basicBlood x b g with
    | none => rfl
    | some r =>
      obtain ⟨hs, hc⟩ := basicBlood_label_shape hcc hB
      obtain ⟨L, P⟩ := r
      simp only [] at hs hc ⊢
      have h1 := shape_beq_sibling hs
      have h2 := shape_beq_cousinlit hc "1st cousin" (by decide)
      simp [h1, h2, hc]
  · rw [if_neg hd]

theorem culturalViaReverse_none {a b x dist : Nat} {g : Graph}
    (hcc : closestCommon (ancestorsList a g.parents)
        (ancestorsList x g.parents) = none) :
    culturalViaReverse a b g x dist = none := by
  unfold culturalViaReverse
  cases hB : basicBlood a x g with
  | none => rfl
  | some r =>
    obtain ⟨hs, hc⟩ := basicBlood_label_shape hcc hB
    obtain ⟨L, P⟩ := r
    simp only [] at hs hc ⊢
    have h1 := shape_beq_sibling hs
    have h2 := shape_beq_cousinlit hc "1st cousin" (by decide)
    simp [h1, h2, hc]

theorem basicBlood_eq_none {a b : Nat} {g : Graph}
    (hab : a ≠ b)
    (hch : ((childrenD g a).contains b) = false)
    (hpa : ((parentsD g a).contains b) = false)
    (h5 : lookupN (ancestorsList a g.parents) b = none)
    (h6 : lookupN (ancestorsList b g.parents) a = none)
    (h7 : closestCommon (ancestorsList a g.parents)
        (ancestorsList b g.parents) = none) :
    basicBlood a b g = none := by
  unfold basicBlood
  rw [if_neg hab, if_neg (bool_ne_true hch), if_neg (bool_ne_true hpa)]
  simp only []
  rw [h5]
  simp only []
  rw [h6]
  simp only []
  rw [h7]

theorem checkCultural_none {a b : Nat} {g : Graph}
    (hab : a ≠ b)
    (hch : ((childrenD g a).contains b) = false)
    (hpa : ((parentsD g a).contains b) = false)
    (h5 : lookupN (ancestorsList a g.parents) b = none)
    (h6 : lookupN (ancestorsList b g.parents) a = none)
    (h7 : closestCommon (ancestorsList a g.parents)
        (ancestorsList b g.parents) = none) :
    checkCultural a b g = none := by
  have s1 : (parentsD g a).findSome? (culturalViaParent a b g) = none := by
    rw [findSome?_eq_none_iff]
    intro pp hpp
    refine culturalViaParent_none (cc_none_of_step ?_ h6 h7)
    intro y hy
    exact reach_parent_step hpp hy
  have s2 : (ancestorsList a g.parents).findSome?
      (fun e => culturalViaAncestor a b g e.1 e.2) = none := by
    rw [findSome?_eq_none_iff]
    intro e he
    show culturalViaAncestor a b g e.1 e.2 = none
    refine culturalViaAncestor_none (cc_none_of_step ?_ h6 h7)
    intro y hy
    refine reach_extend ?_ hy
    unfold keysOf
    exact List.mem_map.2 ⟨e, he, rfl⟩
  have s3 : (ancestorsList b g.parents).findSome?
      (fun e => culturalViaReverse a b g e.1 e.2) = none := by
    rw [findSome?_eq_none_iff]
    intro e he
    show culturalViaReverse a b g e.1 e.2 = none
    refine culturalViaReverse_none (cc_none_sym ?_ h5 h7)
    unfold keysOf
    exact List.mem_map.2 ⟨e, he, rfl⟩
  have s4 := basicBlood_eq_none hab hch hpa h5 h6 h7
  unfold checkCultural
  rw [s1]
  simp only []
  rw [s2]
  simp only []
  rw [s3]
  simp only []
  rw [s4]

/-- The spec's step-9 order for the no-blood case, written from the spec's
words: the in-law resolution chain (inline spouse-side block, child's-spouse,
then the in-law checker) decides the label and `unknown` closes the query;
the cultural adjuster contributes nothing. `computeRelationship` refines this
on the no-blood domain. -/
def inLawStage (a b : Nat) (g : Graph) : String × List Nat :=
  match (spousesD g a).findSome? (inlineSpouse a b g) with
  | some r => r
  | none =>
  match (childrenD g a).findSome? (fun c =>
      if (spousesD g c).contains b then some ("child-in-law", [a, c, b])
      else none) with
  | some r => r
  | none =>
  match checkInLaw a b g with
  | some r => r
  | none => ("unknown", [a, b])

/-- C1: for every pair of distinct members with no direct relation, neither an
ancestor of the other, and no common ancestor, the cultural checker returns
`none` (it provably cannot fire when `_compute_relationship` reaches it, for
any input graph), so the computed relationship is exactly the in-law
resolution chain's answer: whenever an in-law label is derivable it is the
one returned, and the cultural adjuster never preempts it. -/
theorem C1_inlaw_precedence {a b : Nat} {g : Graph}
    (hab : a ≠ b)
    (hsp : ((spousesD g a).contains b) = false)
    (hch : ((childrenD g a).contains b) = false)
    (hpa : ((parentsD g a).contains b) = false)
    (h5 : lookupN (ancestorsList a g.parents) b = none)
    (h6 : lookupN (ancestorsList b g.parents) a = none)
    (h7 : closestCommon (ancestorsList a g.parents)
        (ancestorsList b g.parents) = none) :
    checkCultural a b g = none ∧
    computeRelationship a b g = inLawStage a b g := by
  have hcc := checkCultural_none hab hch hpa h5 h6 h7
  refine ⟨hcc, ?_⟩
  unfold computeRelationship
  rw [if_neg hab, if_neg (bool_ne_true hsp), if_neg (bool_ne_true hch),
    if_neg (bool_ne_true hpa)]
  simp only []
  rw [h5]
  simp only []
  rw [h6]
  simp only []
  rw [h7]
  simp only []
  unfold afterCollateral inLawStage
  rw [hcc]

/-- Member 1's parent is 2; 2 and 3 are spouses; no blood relation between
1 and 3, so the in-law chain answers ("step-parent", [1, 2, 3]). -/
def stepGraph : Graph :=
  { members := [(1, ⟨none⟩), (2, ⟨none⟩), (3, ⟨none⟩)],
    spouses := [(2, [3]), (3, [2])],
    parents := [(1, [2])],
    children := [(2, [1])] }

/-- Witness for C1 on `stepGraph` (query 1 → 3: the spouse of 1's parent). -/
theorem C1_inlaw_precedence_witness :
    checkCultural 1 3 stepGraph = none ∧
    computeRelationship 1 3 stepGraph = inLawStage 1 3 stepGraph := by
  have e1 : ancestorsList 1 stepGraph.parents = [(2, 1)] := by
    repeat
      first
      | rfl
      | rw [bfsLoop]
      | simp [ancestorsList, expandStep, lookupD, stepGraph]
  have e3 : ancestorsList 3 stepGraph.parents = [] := by
    repeat
      first
      | rfl
      | rw [bfsLoop]
      | simp [ancestorsList, expandStep, lookupD, stepGraph]
  exact C1_inlaw_precedence (by decide) (by decide) (by decide) (by decide)
    (by rw [e1]; rfl) (by rw [e3]; rfl) (by rw [e1, e3]; rfl)

theorem contains_eq_false_of_not_mem {l : List Nat} {x : Nat} (h : x ∉ l) :
    l.contains x = false := by
  cases hq : l.contains x
  · rfl
  · exact absurd (by simpa using hq) h

theorem not_key_ancestors_of_not_val {p : List (Nat × List Nat)} {s x : Nat}
    (hvals : ∀ e ∈ p, x ∉ e.2) : x ∉ keysOf (ancestorsList s p) := by
  intro hk
  obtain ⟨hne, k, hw⟩ := keys_ancestors_iff.1 hk
  cases k with
  | zero => exact hne (walkUp_zero.1 hw)
  | succ n =>
    obtain ⟨u, hu, hwu, hv⟩ := walkUp_succ.1 hw
    exact not_mem_lookupD hvals hv

theorem closestCommon_nil_right {mf : List (Nat × Nat)} :
    closestCommon mf ([] : List (Nat × Nat)) = none :=
  closestCommon_eq_none_iff.2 (fun e _ => rfl)

theorem basicBlood_absent_to {g : Graph} {s b : Nat} (hne : s ≠ b)
    (hchv : ∀ e ∈ g.children, b ∉ e.2)
    (hpav : ∀ e ∈ g.parents, b ∉ e.2)
    (hpak : b ∉ keysOf g.parents) :
    basicBlood s b g = none := by
  have hancB : ancestorsList b g.parents = [] :=
    ancestorsList_eq_nil (lookupD_eq_default hpak)
  refine basicBlood_eq_none hne ?_ ?_ ?_ ?_ ?_
  · exact contains_eq_false_of_not_mem (not_mem_lookupD hchv)
  · exact contains_eq_false_of_not_mem (not_mem_lookupD hpav)
  · exact lookupN_eq_none_iff_keys.2 (not_key_ancestors_of_not_val hpav)
  · rw [hancB]; rfl
  · rw [hancB]; exact closestCommon_nil_right

theorem basicBlood_absent_from {g : Graph} {a x : Nat} (hne : a ≠ x)
    (hpak : a ∉ keysOf g.parents) (hchk : a ∉ keysOf g.children)
    (hpav : ∀ e ∈ g.parents, a ∉ e.2) :
    basicBlood a x g = none := by
  have hpaA : parentsD g a = [] := lookupD_eq_default hpak
  have hchA : childrenD g a = [] := lookupD_eq_default hchk
  have hancA : ancestorsList a g.parents = [] := ancestorsList_eq_nil hpaA
  refine basicBlood_eq_none hne ?_ ?_ ?_ ?_ ?_
  · rw [hchA]; rfl
  · rw [hpaA]; rfl
  · rw [hancA]; rfl
  · exact lookupN_eq_none_iff_keys.2 (not_key_ancestors_of_not_val hpav)
  · rw [hancA]; rfl

theorem checkInLaw_absent_to {g : Graph} {a b : Nat}
    (hspv : ∀ e ∈ g.spouses, b ∉ e.2)
    (hpav : ∀ e ∈ g.parents, b ∉ e.2)
    (hchv : ∀ e ∈ g.children, b ∉ e.2)
    (hpak : b ∉ keysOf g.parents) :
    checkInLaw a b g = none := by
  have hpaB : parentsD g b = [] := lookupD_eq_default hpak
  have s1 : (parentsD g a).findSome? (fun p =>
      if (spousesD g p).contains b && !(parentsD g a).contains b then
        some ("step-parent", [a, p, b])
      else none) = none := by
    rw [findSome?_eq_none_iff]
    intro p hp
    have hc : ((spousesD g p).contains b && !(parentsD g a).contains b) = false := by
      have hcx : ((spousesD g p).contains b) = false :=
        contains_eq_false_of_not_mem (not_mem_lookupD hspv)
      rw [hcx]
      exact Bool.false_and _
    rw [if_neg (bool_ne_true hc)]
  have s2 : (parentsD g b).findSome? (fun p =>
      if (spousesD g p).contains a && !(parentsD g b).contains a then
        some ("step-child", [a, p, b])
      else none) = none := by
    rw [hpaB]
    rfl
  have s3 : (spousesD g a).findSome? (inLawViaSpouse a b g) = none := by
    rw [findSome?_eq_none_iff]
    intro s hs
    have hsb : s ≠ b := by
      intro he
      exact not_mem_lookupD hspv (he ▸ hs)
    unfold inLawViaSpouse
    rw [basicBlood_absent_to hsb hchv hpav hpak]
  have s4 : (childrenD g a).findSome? (fun c =>
      if (spousesD g c).contains b then some ("child-in-law", [a, c, b])
      else none) = none := by
    rw [findSome?_eq_none_iff]
    intro c hc
    have hcx : ((spousesD g c).contains b) = false :=
      contains_eq_false_of_not_mem (not_mem_lookupD hspv)
    rw [if_neg (bool_ne_true hcx)]
  have s5 : (keysOf g.members).findSome? (inLawViaRelative a b g) = none := by
    rw [findSome?_eq_none_iff]
    intro x hx
    unfold inLawViaRelative
    by_cases hq : (x == a || x == b) = true
    · rw [if_pos hq]
    · rw [if_neg hq]
      have hcx : ((spousesD g x).contains b) = false :=
        contains_eq_false_of_not_mem (not_mem_lookupD hspv)
      rw [if_neg (bool_ne_true hcx)]
  unfold checkInLaw
  rw [s1]
  simp only []
  rw [s2]
  simp only []
  rw [s3]
  simp only []
  rw [s4]
  simp only []
  exact s5

theorem checkInLaw_absent_from {g : Graph} {a b : Nat}
    (hspk : a ∉ keysOf g.spouses) (hpak : a ∉ keysOf g.parents)
    (hchk : a ∉ keysOf g.children)
    (hspv : ∀ e ∈ g.spouses, a ∉ e.2)
    (hpav : ∀ e ∈ g.parents, a ∉ e.2) :
    checkInLaw a b g = none := by
  have hspA : spousesD g a = [] := lookupD_eq_default hspk
  have hpaA : parentsD g a = [] := lookupD_eq_default hpak
  have hchA : childrenD g a = [] := lookupD_eq_default hchk
  have s1 : (parentsD g a).findSome? (fun p =>
      if (spousesD g p).contains b && !(parentsD g a).contains b then
        some ("step-parent", [a, p, b])
      else none) = none := by
    rw [hpaA]
    rfl
  have s2 : (parentsD g b).findSome? (fun p =>
      if (spousesD g p).contains a && !(parentsD g b).contains a then
        some ("step-child", [a, p, b])
      else none) = none := by
    rw [findSome?_eq_none_iff]
    intro p hp
    have hc : ((spousesD g p).contains a && !(parentsD g b).contains a) = false := by
      have hcx : ((spousesD g p).contains a) = false :=
        contains_eq_false_of_not_mem (not_mem_lookupD hspv)
      rw [hcx]
      exact Bool.false_and _
    rw [if_neg (bool_ne_true hc)]
  have s3 : (spousesD g a).findSome? (inLawViaSpouse a b g) = none := by
    rw [hspA]
    rfl
  have s4 : (childrenD g a).findSome? (fun c =>
      if (spousesD g c).contains b then some ("child-in-law", [a, c, b])
      else none) = none := by
    rw [hchA]
    rfl
  have s5 : (keysOf g.members).findSome? (inLawViaRelative a b g) = none := by
    rw [findSome?_eq_none_iff]
    intro x hx
    unfold inLawViaRelative
    by_cases hq : (x == a || x == b) = true
    · rw [if_pos hq]
    · rw [if_neg hq]
      by_cases hs : ((spousesD g x).contains b) = true
      · have hxa : x ≠ a := by
          intro he
          exact hq (by rw [he]; simp)
        rw [if_pos hs,
          basicBlood_absent_from (fun he => hxa he.symm) hpak hchk hpav]
      · rw [if_neg hs]
  unfold checkInLaw
  rw [s1]
  simp only []
  rw [s2]
  simp only []
  rw [s3]
  simp only []
  rw [s4]
  simp only []
  exact s5

theorem computeRelationship_absent_to {g : Graph} {a b : Nat} (hne : a ≠ b)
    (hb : absentFrom g b) : computeRelationship a b g = ("unknown", [a, b]) := by
  obtain ⟨hmemB, hspkB, hpakB, hchkB, hspvB, hpavB, hchvB⟩ := hb
  have hancB : ancestorsList b g.parents = [] :=
    ancestorsList_eq_nil (lookupD_eq_default hpakB)
  have hsp : ((spousesD g a).contains b) = false :=
    contains_eq_false_of_not_mem (not_mem_lookupD hspvB)
  have hch : ((childrenD g a).contains b) = false :=
    contains_eq_false_of_not_mem (not_mem_lookupD hchvB)
  have hpa : ((parentsD g a).contains b) = false :=
    contains_eq_false_of_not_mem (not_mem_lookupD hpavB)
  have h5 : lookupN (ancestorsList a g.parents) b = none :=
    lookupN_eq_none_iff_keys.2 (not_key_ancestors_of_not_val hpavB)
  have h6 : lookupN (ancestorsList b g.parents) a = none := by
    rw [hancB]
    rfl
  have h7 : closestCommon (ancestorsList a g.parents)
      (ancestorsList b g.parents) = none := by
    rw [hancB]
    exact closestCommon_nil_right
  have hcul := checkCultural_none hne hch hpa h5 h6 h7
  have hinl := checkInLaw_absent_to (a := a) hspvB hpavB hchvB hpakB
  have sIn : (spousesD g a).findSome? (inlineSpouse a b g) = none := by
    rw [findSome?_eq_none_iff]
    intro s hs
    unfold inlineSpouse
    have hc1 : ((parentsD g s).contains b) = false :=
      contains_eq_false_of_not_mem (not_mem_lookupD hpavB)
    have hc2 : ((childrenD g s).contains b) = false :=
      contains_eq_false_of_not_mem (not_mem_lookupD hchvB)
    rw [if_neg (bool_ne_true hc1), if_neg (bool_ne_true hc2)]
    simp only []
    rw [hancB]
    rw [findSome?_eq_none_iff]
    intro e he
    rfl
  have sCh : (childrenD g a).findSome? (fun c =>
      if (spousesD g c).contains b then some ("child-in-law", [a, c, b])
      else none) = none := by
    rw [findSome?_eq_none_iff]
    intro c hc
    have hcx : ((spousesD g c).contains b) = false :=
      contains_eq_false_of_not_mem (not_mem_lookupD hspvB)
    rw [if_neg (bool_ne_true hcx)]
  unfold computeRelationship afterCollateral
  rw [if_neg hne, if_neg (bool_ne_true hsp), if_neg (bool_ne_true hch),
    if_neg (bool_ne_true hpa)]
  simp only []
  rw [h5]
  simp only []
  rw [h6]
  simp only []
  rw [h7]
  simp only []
  rw [sIn]
  simp only []
  rw [sCh]
  simp only []
  rw [hcul]
  simp only []
  rw [hinl]

theorem computeRelationship_absent_from {g : Graph} {a b : Nat} (hne : a ≠ b)
    (ha : absentFrom g a) : computeRelationship a b g = ("unknown", [a, b]) := by
  obtain ⟨hmemA, hspkA, hpakA, hchkA, hspvA, hpavA, hchvA⟩ := ha
  have hspA : spousesD g a = [] := lookupD_eq_default hspkA
  have hpaA : parentsD g a = [] := lookupD_eq_default hpakA
  have hchA : childrenD g a = [] := lookupD_eq_default hchkA
  have hancA : ancestorsList a g.parents = [] := ancestorsList_eq_nil hpaA
  have hsp : ((spousesD g a).contains b) = false := by
    rw [hspA]
    rfl
  have hch : ((childrenD g a).contains b) = false := by
    rw [hchA]
    rfl
  have hpa : ((parentsD g a).contains b) = false := by
    rw [hpaA]
    rfl
  have h5 : lookupN (ancestorsList a g.parents) b = none := by
    rw [hancA]
    rfl
  have h6 : lookupN (ancestorsList b g.parents) a = none :=
    lookupN_eq_none_iff_keys.2 (not_key_ancestors_of_not_val hpavA)
  have h7 : closestCommon (ancestorsList a g.parents)
      (ancestorsList b g.parents) = none := by
    rw [hancA]
    rfl
  have hcul := checkCultural_none hne hch hpa h5 h6 h7
  have hinl := checkInLaw_absent_from (b := b) hspkA hpakA hchkA hspvA hpavA
  have sIn : (spousesD g a).findSome? (inlineSpouse a b g) = none := by
    rw [hspA]
    rfl
  have sCh : (childrenD g a).findSome? (fun c =>
      if (spousesD g c).contains b then some ("child-in-law", [a, c, b])
      else none) = none := by
    rw [hchA]
    rfl
  unfold computeRelationship afterCollateral
  rw [if_neg hne, if_neg (bool_ne_true hsp), if_neg (bool_ne_true hch),
    if_neg (bool_ne_true hpa)]
  simp only []
  rw [h5]
  simp only []
  rw [h6]
  simp only []
  rw [h7]
  simp only []
  rw [sIn]
  simp only []
  rw [sCh]
  simp only []
  rw [hcul]
  simp only []
  rw [hinl]

/-- C2 as amended: for every query in which the from id or the to id is
absent from the supplied graph (not a key of any dict and not present in any
adjacency list), the engine does not fail — every dict access in the source
uses `.get(x, [])` — and, when the two ids are distinct, it treats them as
unrelated members and returns the label "unknown" with path [from, to]; a
query with from = to returns "self" even for an absent id. -/
theorem C2_amended_absent_unknown (g : Graph) (a b : Nat)
    (hor : absentFrom g a ∨ absentFrom g b) :
    (a ≠ b → computeRelationship a b g = ("unknown", [a, b])) ∧
    (a = b → computeRelationship a b g = ("self", [a])) := by
  constructor
  · intro hne
    rcases hor with ha | hb
    · exact computeRelationship_absent_from hne ha
    · exact computeRelationship_absent_to hne hb
  · intro heq
    subst heq
    unfold computeRelationship
    rw [if_pos rfl]

/-- Witness for C2 (amended): the present member 1 of `tinyGraph` queried
against the absent id 6 yields "unknown", and the self query on the absent
id 6 yields "self". -/
theorem C2_amended_absent_unknown_witness :
    computeRelationship 1 6 tinyGraph = ("unknown", [1, 6]) ∧
    computeRelationship 6 6 tinyGraph = ("self", [6]) :=
  ⟨(C2_amended_absent_unknown tinyGraph 1 6 (Or.inr (by decide))).1 (by decide),
   (C2_amended_absent_unknown tinyGraph 6 6 (Or.inr (by decide))).2 rfl⟩
